import Mathlib

/-!
Verification development for the cruncher accumulator package.

The definitions below are a shallow embedding of src/cruncher.go.
Go int64 / int values are modelled as unbounded Int; the claims under
study never exercise integer wrap-around (overflow of the running total
is an accepted limitation in the package documentation), so no modular
reduction is inserted.  Go run-time panics (index out of range,
integer division by zero, slice bounds out of range, unbounded
recursion) are modelled by Option, with none standing for the panic
or divergence.

Two floating-point expressions occur in the source and are modelled
exactly on the integer inputs the claims use:
- bucket size, math.Ceil(float64(diff+1) / float64(buckets)), is the
  exact ceiling of an integer quotient and is modelled by ceilDivInt;
- bucket offset, int(math.Floor(float64(v-start)/float64(size))), is
  the exact floor of an integer quotient and is modelled by Int.fdiv;
  division by a zero BucketSize (undefined conversion of Inf or NaN
  in Go) is modelled as none.
- the Mean field, float64(a.total / a.intStats.Count), always holds a
  float of an exact int64 quotient, so the field is modelled by that
  integer quotient (Int.tdiv, which truncates toward zero like Go).
-/

namespace Cruncher

/-- Exact value of math.Ceil of the rational a / b, for b not zero. -/
def ceilDivInt (a b : Int) : Int := -(Int.fdiv (-a) b)

/-- The sort used by the package: Go sort.Sort with Less comparing by
the value.  An integer list sorted by the strict order is exactly the
unique nondecreasing permutation, which insertionSort by the reflexive
order also produces, so stability and algorithm differences are
invisible. -/
def sortInt (l : List Int) : List Int := List.insertionSort (fun x y : Int => x ≤ y) l

/-- IntStats from cruncher.go.  FrequencyDistribution is the histogram
bucket array; ValueFrequency models the Go map as an association list
(the Go iteration order is unspecified; every property proved below is
independent of the order of the entries). -/
@[ext]
structure IntStats where
  Min : Int
  Max : Int
  Count : Int
  Mean : Int
  Median : Int
  FrequencyDistribution : List Int
  BucketSize : Int
  FrequencyDistributionStartingValue : Int
  OutlierBefore : Int
  OutlierAfter : Int
  ValueFrequency : List (Int × Int)
deriving Repr, DecidableEq

/-- Accumulator from cruncher.go. -/
@[ext]
structure Accumulator where
  intStats : IntStats
  remedians : List (List Int)
  total : Int
  appoximationWindow : Int
  buckets : Int
deriving Repr, DecidableEq

/-- The Go zero value of IntStats: all numeric fields zero, nil slice
and nil map modelled as empty. -/
def zeroStats : IntStats :=
  { Min := 0, Max := 0, Count := 0, Mean := 0, Median := 0,
    FrequencyDistribution := [], BucketSize := 0,
    FrequencyDistributionStartingValue := 0,
    OutlierBefore := 0, OutlierAfter := 0, ValueFrequency := [] }

/-- NewAccumulator: allocates the accumulator, stores both parameters,
performs no validation whatsoever. -/
def NewAccumulator (appoximationWindow buckets : Int) : Accumulator :=
  { intStats := zeroStats, remedians := [], total := 0,
    appoximationWindow := appoximationWindow, buckets := buckets }

/-- The outlier-before branch of incrementFrequencyDistribution. -/
def bumpBefore (is : IntStats) : IntStats := { is with OutlierBefore := is.OutlierBefore + 1 }

/-- The outlier-after branch of incrementFrequencyDistribution. -/
def bumpAfter (is : IntStats) : IntStats := { is with OutlierAfter := is.OutlierAfter + 1 }

/-- The bucket offset of a value: the floor of (value - start) / size,
as a list index (the conversion to Nat is faithful because this is
only used when the offset is non-negative). -/
def bumpOffset (is : IntStats) (value : Int) : Nat :=
  (Int.fdiv (value - is.FrequencyDistributionStartingValue) is.BucketSize).toNat

/-- The bucket branch of incrementFrequencyDistribution. -/
def bumpFD (is : IntStats) (value : Int) : IntStats :=
  { is with FrequencyDistribution := is.FrequencyDistribution.set (bumpOffset is value) (is.FrequencyDistribution.getD (bumpOffset is value) 0 + 1) }

/-- incrementFrequencyDistribution, assuming BucketSize is not zero
(the zero case is guarded by incrementChecked).  Exactly one of the
two outlier counters or one bucket is incremented. -/
def incrementFrequencyDistribution (is : IntStats) (value : Int) : IntStats :=
  let offset : Int := Int.fdiv (value - is.FrequencyDistributionStartingValue) is.BucketSize
  if offset < 0 then bumpBefore is
  else if (is.FrequencyDistribution.length : Int) ≤ offset then bumpAfter is
  else bumpFD is value

/-- Wrapper making the division by a zero BucketSize explicit: Go
would convert an Inf or NaN float to int, which is undefined, so the
model refuses with none. -/
def incrementChecked (is : IntStats) (value : Int) : Option IntStats :=
  if is.BucketSize = 0 then none else some (incrementFrequencyDistribution is value)

/-- The stats record right after the assignments at the top of
initializeFrequencyDistribution: outliers reset, zeroed bucket array,
starting value fixed to Min, bucket size the exact ceiling of
(Max - Min + 1) / buckets. -/
def initStats (is : IntStats) (buckets : Int) : IntStats :=
  { is with
    OutlierAfter := 0, OutlierBefore := 0,
    FrequencyDistribution := List.replicate buckets.toNat 0,
    FrequencyDistributionStartingValue := is.Min,
    BucketSize := ceilDivInt (is.Max - is.Min + 1) buckets }

/-- initializeFrequencyDistribution: resets the outlier counters,
allocates the bucket array, fixes the starting value and bucket size
from the current Min and Max, and replays the level-0 remedian buffer.
none models the Go panics and undefined conversions: make with a
negative length panics and a zero bucket count divides by zero
(buckets ≤ 0); indexing a.remedians[0] with no level panics
(remedians = []); a zero BucketSize makes every replayed increment
divide by zero (guarded only when there is something to replay). -/
def initializeFrequencyDistribution (a : Accumulator) : Option Accumulator :=
  if a.buckets ≤ 0 then none
  else
    match a.remedians with
    | [] => none
    | l0 :: _ =>
      if (initStats a.intStats a.buckets).BucketSize = 0 ∧ l0 ≠ [] then none
      else some { a with intStats := l0.foldl incrementFrequencyDistribution (initStats a.intStats a.buckets) }

/-- computeMedian: sorts and returns (first, last, middle).  none
models the index-out-of-range panic on an empty slice.  The returned
sorted list is needed by callers because Go sorts the slice in place;
it is recovered as sortInt of the argument. -/
def computeMedian (values : List Int) : Option (Int × Int × Int) :=
  let s := sortInt values
  match s with
  | [] => none
  | x :: _ => some (x, s.getLastD 0, s.getD (s.length / 2) 0)

/-- pushMedianValue on the remedian cascade.  The fuel argument bounds
the flush recursion; with a positive window a flush chain visits each
level at most once and then stops in a freshly created level, so
length + 2 fuel always suffices, while with window ≤ 0 the Go code
recurses forever, which the model reports as none.  The second none
(offset beyond the level list even after growing it) mirrors the Go
index panic and is unreachable from Add.  The in-place sort performed
by computeMedian on the flushed buffer is dropped because the buffer
is reset immediately afterwards and deeper levels never read it. -/
def pushMedianValue (w : Int) : Nat → List (List Int) → Nat → Int → Option (List (List Int))
  | 0, _, _, _ => none
  | fuel + 1, levels, offset, value =>
    let levels1 := if levels.length ≤ offset then levels ++ [[]] else levels
    if levels1.length ≤ offset then none
    else
      let buf := levels1.getD offset [] ++ [value]
      let levels2 := levels1.set offset buf
      if w < (buf.length : Int) then
        match computeMedian buf with
        | none => none
        | some t =>
          (pushMedianValue w fuel levels2 (offset + 1) t.2.2).map
            (fun l3 => l3.set offset [])
      else some levels2

/-- The value-frequency map update at the end of Add: an existing key
is incremented unconditionally, a new key is inserted only while the
map holds fewer than appoximationWindow distinct keys. -/
def updateValueFrequency (vf : List (Int × Int)) (w : Int) (value : Int) : List (Int × Int) :=
  if (vf.lookup value).isSome then
    vf.map (fun p => if p.1 = value then (p.1, p.2 + 1) else p)
  else if (vf.length : Int) < w then vf ++ [(value, 1)]
  else vf

/-- The opening of Add (source lines 117 to 131): min/max adjustment,
map creation on the first value, count and the running total. -/
def observeValue (is : IntStats) (value : Int) : IntStats :=
  let is1 :=
    if is.Count = 0 then
      { is with Max := value, Min := value, ValueFrequency := [] }
    else if is.Max < value then { is with Max := value }
    else if is.Min > value then { is with Min := value }
    else is
  { is1 with Count := is1.Count + 1 }

/-- The frequency-distribution step of Add: increment once the bucket
array exists, initialize when the new count reaches the window,
otherwise do nothing. -/
def addFrequencyStep (a1 : Accumulator) (value : Int) : Option Accumulator :=
  if 0 < a1.intStats.FrequencyDistribution.length then
    (incrementChecked a1.intStats value).map (fun is3 => { a1 with intStats := is3 })
  else if a1.intStats.Count = a1.appoximationWindow then
    initializeFrequencyDistribution a1
  else some a1

/-- The accumulator after the opening of Add: updated stats and the
running total. -/
def addObserve (a : Accumulator) (value : Int) : Accumulator :=
  { a with intStats := observeValue a.intStats value, total := a.total + value }

/-- The closing of Add: store the pushed remedian levels and update
the value-frequency map. -/
def addValueFrequencyStep (a2 : Accumulator) (rem : List (List Int)) (value : Int) :
    Accumulator :=
  let vf := updateValueFrequency a2.intStats.ValueFrequency a2.appoximationWindow value
  { a2 with remedians := rem, intStats := { a2.intStats with ValueFrequency := vf } }

/-- Add from cruncher.go: min/max update with count and total, the
frequency-distribution step, the remedian push, and last the
value-frequency update, in exactly the source order. -/
def Add (a : Accumulator) (value : Int) : Option Accumulator :=
  (addFrequencyStep (addObserve a value) value).bind (fun a2 =>
    (pushMedianValue a2.appoximationWindow (a2.remedians.length + 2) a2.remedians 0 value).map
      (fun rem => addValueFrequencyStep a2 rem value))

/-- The one-time-or-not initialization step at the top of Summarize:
the source re-initializes whenever Count is still below the window. -/
def summarizeInit (a : Accumulator) : Option Accumulator :=
  if a.intStats.Count < a.appoximationWindow then initializeFrequencyDistribution a
  else some a

/-- The mean assignment of Summarize: Mean holds the truncated
integer quotient the Go code converts to float. -/
def setMean (b : Accumulator) : Accumulator :=
  { b with intStats := { b.intStats with Mean := Int.tdiv b.total b.intStats.Count } }

/-- The effect of the single median-loop iteration of Summarize on
the deepest level: store the median and keep the in-place sort that
computeMedian performed on that level. -/
def summarizeMedian (c : Accumulator) (t : Int × Int × Int) : Accumulator :=
  { c with
    intStats := { c.intStats with Median := t.2.2 },
    remedians := c.remedians.set (c.remedians.length - 1) (sortInt (c.remedians.getLastD [])) }

/-- The part of Summarize after the possible histogram
initialization: the mean (none on Count = 0, the Go divide-by-zero
panic), then the median loop, whose body runs at most once, on the
deepest level, and returns. -/
def summarizeBody (b : Accumulator) : Option Accumulator :=
  if b.intStats.Count = 0 then none
  else
    match (setMean b).remedians with
    | [] => some (setMean b)
    | _ :: _ =>
      (computeMedian ((setMean b).remedians.getLastD [])).map (summarizeMedian (setMean b))

/-- Summarize from cruncher.go. -/
def Summarize (a : Accumulator) : Option Accumulator :=
  (summarizeInit a).bind summarizeBody

/-- GetStats: Summarize, then return the struct.  In this value-level
model the returned IntStats is an independent copy; the Go struct
copy in fact shares the bucket slice and the frequency map, which the
reference-semantics model further below makes explicit. -/
def GetStats (a : Accumulator) : Option (IntStats × Accumulator) :=
  (Summarize a).map (fun b => (b.intStats, b))

/-- Pair from cruncher.go. -/
structure Pair where
  Value : Int
  Frequency : Int
deriving Repr, DecidableEq

/-- The order GetTermFrequency sorts by: sort.Reverse of the PairList
Less, that is descending frequency. -/
def pairGE (p q : Pair) : Prop := q.Frequency ≤ p.Frequency

instance : DecidableRel pairGE := fun p q => inferInstanceAs (Decidable (q.Frequency ≤ p.Frequency))

instance : IsTotal Pair pairGE := ⟨fun p q => le_total q.Frequency p.Frequency⟩

instance : IsTrans Pair pairGE := ⟨fun _ _ _ h1 h2 => le_trans h2 h1⟩

/-- GetTermFrequency: clamp topN to the number of tracked keys, sort
all pairs by descending frequency, return the prefix.  A negative
topN survives the clamp and makes the Go slice expression pl[:topN]
panic, modelled as none.  Ties between equal frequencies depend on
the unspecified Go map iteration order; the model fixes the
association-list order, and the proved properties are tie-independent. -/
def GetTermFrequency (is : IntStats) (topN : Int) : Option (List Pair) :=
  let pl := is.ValueFrequency.map (fun p => Pair.mk p.1 p.2)
  let t := if topN > (is.ValueFrequency.length : Int) then (is.ValueFrequency.length : Int) else topN
  if t < 0 then none
  else some ((List.insertionSort pairGE pl).take t.toNat)

/-- Feeding a whole list of values through Add. -/
def runAdds (a : Accumulator) : List Int → Option Accumulator
  | [] => some a
  | v :: vs =>
    match Add a v with
    | none => none
    | some a1 => runAdds a1 vs

/-- The quantity the conservation claim is about: all histogram bucket
counts plus the two outlier counters. -/
def histogramTotal (is : IntStats) : Int :=
  is.FrequencyDistribution.sum + is.OutlierBefore + is.OutlierAfter

/-- The run invariant: everything that holds of an accumulator created
as NewAccumulator w b after the values vs have been ingested through
Add (conditional on every Add having returned).  It carries the claims
C3, C7 and C10 through the induction over the stream. -/
structure RunInv (w b : Int) (vs : List Int) (a : Accumulator) : Prop where
  window : a.appoximationWindow = w
  bucketsEq : a.buckets = b
  count : a.intStats.Count = (vs.length : Int)
  minmem : vs ≠ [] → a.intStats.Min ∈ vs
  maxmem : vs ≠ [] → a.intStats.Max ∈ vs
  minle : ∀ x ∈ vs, a.intStats.Min ≤ x
  lemax : ∀ x ∈ vs, x ≤ a.intStats.Max
  remNonempty : vs ≠ [] → a.remedians ≠ []
  lastNonempty : vs ≠ [] → a.remedians.getLastD [] ≠ []
  remMem : ∀ buf ∈ a.remedians, ∀ x ∈ buf, x ∈ vs
  remNil : vs = [] → a.remedians = []
  smallRem : vs ≠ [] → (vs.length : Int) ≤ w → a.remedians = [vs]
  fdSmall : (vs.length : Int) < w →
    a.intStats.FrequencyDistribution = [] ∧
    a.intStats.OutlierBefore = 0 ∧ a.intStats.OutlierAfter = 0
  fdBig : vs ≠ [] → w ≤ (vs.length : Int) →
    1 ≤ b ∧ a.intStats.FrequencyDistribution.length = b.toNat ∧
    1 ≤ a.intStats.BucketSize ∧ histogramTotal a.intStats = (vs.length : Int) - 1

/-!
Reference-semantics model.

Go slices and maps are reference types: the struct copy performed by
GetStats copies the slice header and the map header, not the backing
storage.  The value-level model above cannot express that sharing,
so the snapshot-independence claim is settled against the following
second embedding of the same source, in which the two reference-typed
IntStats fields hold handles into an explicit store and every
operation threads the store.  The remedians slices never appear in a
snapshot, so they stay value-level.  A none handle is a nil slice or
nil map (length zero; a write to a nil map panics).
-/

/-- The heap: every allocated int64 slice and every allocated map. -/
structure StoreRef where
  slices : List (List Int)
  maps : List (List (Int × Int))
deriving Repr, DecidableEq

/-- Reading a slice handle: a nil slice reads as empty. -/
def readSlice (st : StoreRef) : Option Nat → List Int
  | none => []
  | some h => st.slices.getD h []

/-- Reading a map handle: a nil map reads as empty. -/
def readMap (st : StoreRef) : Option Nat → List (Int × Int)
  | none => []
  | some h => st.maps.getD h []

/-- IntStats with the two reference-typed fields as store handles. -/
structure IntStatsR where
  Min : Int
  Max : Int
  Count : Int
  Mean : Int
  Median : Int
  FrequencyDistribution : Option Nat
  BucketSize : Int
  FrequencyDistributionStartingValue : Int
  OutlierBefore : Int
  OutlierAfter : Int
  ValueFrequency : Option Nat
deriving Repr, DecidableEq

/-- Accumulator over the store. -/
structure AccumulatorR where
  intStats : IntStatsR
  remedians : List (List Int)
  total : Int
  appoximationWindow : Int
  buckets : Int
deriving Repr, DecidableEq

def zeroStatsR : IntStatsR :=
  { Min := 0, Max := 0, Count := 0, Mean := 0, Median := 0,
    FrequencyDistribution := none, BucketSize := 0,
    FrequencyDistributionStartingValue := 0,
    OutlierBefore := 0, OutlierAfter := 0, ValueFrequency := none }

def NewAccumulatorR (appoximationWindow buckets : Int) : AccumulatorR :=
  { intStats := zeroStatsR, remedians := [], total := 0,
    appoximationWindow := appoximationWindow, buckets := buckets }

/-- incrementFrequencyDistribution over the store: the bucket branch
mutates the shared backing array in place. -/
def incrementR (st : StoreRef) (is : IntStatsR) (value : Int) : StoreRef × IntStatsR :=
  let offset : Int := Int.fdiv (value - is.FrequencyDistributionStartingValue) is.BucketSize
  if offset < 0 then (st, { is with OutlierBefore := is.OutlierBefore + 1 })
  else if ((readSlice st is.FrequencyDistribution).length : Int) ≤ offset then
    (st, { is with OutlierAfter := is.OutlierAfter + 1 })
  else
    match is.FrequencyDistribution with
    | none => (st, is)
    | some h =>
      let fd := st.slices.getD h []
      ({ st with slices := st.slices.set h (fd.set offset.toNat (fd.getD offset.toNat 0 + 1)) }, is)

/-- initializeFrequencyDistribution over the store: make allocates a
fresh backing array, so a re-initialization leaves any previously
snapshotted handle pointing at the old array. -/
def initializeR (st : StoreRef) (a : AccumulatorR) : Option (StoreRef × AccumulatorR) :=
  if a.buckets ≤ 0 then none
  else
    match a.remedians with
    | [] => none
    | l0 :: _ =>
      let st1 : StoreRef := { st with slices := st.slices ++ [List.replicate a.buckets.toNat 0] }
      let is1 : IntStatsR :=
        { a.intStats with
          OutlierAfter := 0, OutlierBefore := 0,
          FrequencyDistribution := some st.slices.length,
          FrequencyDistributionStartingValue := a.intStats.Min,
          BucketSize := ceilDivInt (a.intStats.Max - a.intStats.Min + 1) a.buckets }
      if is1.BucketSize = 0 ∧ l0 ≠ [] then none
      else
        let p := l0.foldl (fun q v => incrementR q.1 q.2 v) (st1, is1)
        some (p.1, { a with intStats := p.2 })

/-- Add over the store; same order of steps as the value-level Add. -/
def AddR (st : StoreRef) (a : AccumulatorR) (value : Int) : Option (StoreRef × AccumulatorR) :=
  let is0 := a.intStats
  let stIs :=
    if is0.Count = 0 then
      ({ st with maps := st.maps ++ [[]] },
       { is0 with Max := value, Min := value, ValueFrequency := some st.maps.length })
    else if is0.Max < value then (st, { is0 with Max := value })
    else if is0.Min > value then (st, { is0 with Min := value })
    else (st, is0)
  let st1 := stIs.1
  let is2 := { stIs.2 with Count := stIs.2.Count + 1 }
  let a1 : AccumulatorR := { a with intStats := is2, total := a.total + value }
  let step2 : Option (StoreRef × AccumulatorR) :=
    if 0 < (readSlice st1 a1.intStats.FrequencyDistribution).length then
      if a1.intStats.BucketSize = 0 then none
      else
        let p := incrementR st1 a1.intStats value
        some (p.1, { a1 with intStats := p.2 })
    else if a1.intStats.Count = a1.appoximationWindow then initializeR st1 a1
    else some (st1, a1)
  match step2 with
  | none => none
  | some sa =>
    match pushMedianValue sa.2.appoximationWindow (sa.2.remedians.length + 2) sa.2.remedians 0 value with
    | none => none
    | some rem =>
      let a3 := { sa.2 with remedians := rem }
      let vf := readMap sa.1 a3.intStats.ValueFrequency
      if (vf.lookup value).isSome then
        match a3.intStats.ValueFrequency with
        | none => none
        | some h =>
          let vf1 := vf.map (fun p => if p.1 = value then (p.1, p.2 + 1) else p)
          some ({ sa.1 with maps := sa.1.maps.set h vf1 }, a3)
      else if (vf.length : Int) < a3.appoximationWindow then
        match a3.intStats.ValueFrequency with
        | none => none
        | some h => some ({ sa.1 with maps := sa.1.maps.set h (vf ++ [(value, 1)]) }, a3)
      else some (sa.1, a3)

/-- Summarize over the store. -/
def SummarizeR (st : StoreRef) (a : AccumulatorR) : Option (StoreRef × AccumulatorR) :=
  let step1 : Option (StoreRef × AccumulatorR) :=
    if a.intStats.Count < a.appoximationWindow then initializeR st a else some (st, a)
  step1.bind (fun sb =>
    if sb.2.intStats.Count = 0 then none
    else
      let c : AccumulatorR :=
        { sb.2 with intStats :=
          { sb.2.intStats with Mean := Int.tdiv sb.2.total sb.2.intStats.Count } }
      match c.remedians with
      | [] => some (sb.1, c)
      | _ :: _ =>
        (computeMedian (c.remedians.getLastD [])).map (fun t =>
          (sb.1,
           { c with
             intStats := { c.intStats with Median := t.2.2 },
             remedians := c.remedians.set (c.remedians.length - 1)
               (sortInt (c.remedians.getLastD [])) })))

/-- GetStats over the store: the returned IntStatsR is the Go struct
copy, scalar fields by value, the slice and map fields as the same
handles the live accumulator keeps using. -/
def GetStatsR (st : StoreRef) (a : AccumulatorR) : Option (StoreRef × AccumulatorR × IntStatsR) :=
  (SummarizeR st a).map (fun sb => (sb.1, sb.2, sb.2.intStats))

/-- The store of a fresh program: nothing allocated yet. -/
def emptyStore : StoreRef := { slices := [], maps := [] }

/-- Concrete snapshot-independence trace, step 1: a fresh accumulator
with window 2 and 2 buckets ingests the value 5. -/
def c2s1 : Option (StoreRef × AccumulatorR) := AddR emptyStore (NewAccumulatorR 2 2) 5

/-- Step 2: take a snapshot with GetStats. -/
def c2snap : Option (StoreRef × AccumulatorR × IntStatsR) := c2s1.bind (fun p => GetStatsR p.1 p.2)

/-- Step 3: one more Add of 5 on the live accumulator, keeping the
previously returned snapshot record. -/
def c2after : Option (StoreRef × AccumulatorR × IntStatsR) :=
  c2snap.bind (fun q => (AddR q.1 q.2.1 5).map (fun p => (p.1, p.2, q.2.2)))

/-- Accumulator after ingesting 1, 2, 4 with window 1000, 5 buckets
(used as the concrete input of several witnesses). -/
def accRun124 : Accumulator :=
  (runAdds (NewAccumulator 1000 5) [1, 2, 4]).getD (NewAccumulator 1000 5)

/-- accRun124 after one Summarize. -/
def accRun124F : Accumulator := (Summarize accRun124).getD accRun124

/-- A concrete accumulator whose count has reached the window:
window 2, 2 buckets, after ingesting 0 and 1. -/
def accWindowReached : Accumulator :=
  (runAdds (NewAccumulator 2 2) [0, 1]).getD (NewAccumulator 2 2)

/-- A concrete IntStats value exercising the term-frequency report. -/
def statsTermFreq : IntStats :=
  { zeroStats with ValueFrequency := [(1, 1), (4, 3), (2, 3)] }

end Cruncher

namespace Cruncher

theorem incrementFD_fields (is : IntStats) (v : Int) :
    (incrementFrequencyDistribution is v).BucketSize = is.BucketSize ∧
    (incrementFrequencyDistribution is v).FrequencyDistributionStartingValue
      = is.FrequencyDistributionStartingValue ∧
    (incrementFrequencyDistribution is v).Min = is.Min ∧
    (incrementFrequencyDistribution is v).Max = is.Max ∧
    (incrementFrequencyDistribution is v).Count = is.Count ∧
    (incrementFrequencyDistribution is v).Mean = is.Mean ∧
    (incrementFrequencyDistribution is v).Median = is.Median ∧
    (incrementFrequencyDistribution is v).ValueFrequency = is.ValueFrequency ∧
    (incrementFrequencyDistribution is v).FrequencyDistribution.length
      = is.FrequencyDistribution.length := by
  simp only [incrementFrequencyDistribution]
  split_ifs <;> simp [bumpBefore, bumpAfter, bumpFD]

theorem foldl_incrementFD_fields (l : List Int) (is : IntStats) :
    (l.foldl incrementFrequencyDistribution is).BucketSize = is.BucketSize ∧
    (l.foldl incrementFrequencyDistribution is).FrequencyDistributionStartingValue
      = is.FrequencyDistributionStartingValue ∧
    (l.foldl incrementFrequencyDistribution is).Min = is.Min ∧
    (l.foldl incrementFrequencyDistribution is).Max = is.Max ∧
    (l.foldl incrementFrequencyDistribution is).Count = is.Count ∧
    (l.foldl incrementFrequencyDistribution is).Mean = is.Mean ∧
    (l.foldl incrementFrequencyDistribution is).Median = is.Median ∧
    (l.foldl incrementFrequencyDistribution is).ValueFrequency = is.ValueFrequency ∧
    (l.foldl incrementFrequencyDistribution is).FrequencyDistribution.length
      = is.FrequencyDistribution.length := by
  induction l generalizing is with
  | nil => exact ⟨rfl, rfl, rfl, rfl, rfl, rfl, rfl, rfl, rfl⟩
  | cons x t ih =>
    have h1 := incrementFD_fields is x
    have h2 := ih (incrementFrequencyDistribution is x)
    simp only [List.foldl_cons]
    exact ⟨h2.1.trans h1.1, h2.2.1.trans h1.2.1, h2.2.2.1.trans h1.2.2.1,
      h2.2.2.2.1.trans h1.2.2.2.1, h2.2.2.2.2.1.trans h1.2.2.2.2.1,
      h2.2.2.2.2.2.1.trans h1.2.2.2.2.2.1, h2.2.2.2.2.2.2.1.trans h1.2.2.2.2.2.2.1,
      h2.2.2.2.2.2.2.2.1.trans h1.2.2.2.2.2.2.2.1, h2.2.2.2.2.2.2.2.2.trans h1.2.2.2.2.2.2.2.2⟩

theorem set_incr_comm (l : List Int) (i j : Nat) :
    (l.set i (l.getD i 0 + 1)).set j ((l.set i (l.getD i 0 + 1)).getD j 0 + 1)
      = (l.set j (l.getD j 0 + 1)).set i ((l.set j (l.getD j 0 + 1)).getD i 0 + 1) := by
  by_cases hij : i = j
  · subst hij
    rfl
  · rw [show (l.set i (l.getD i 0 + 1)).getD j 0 = l.getD j 0 by
        simp [List.getD_eq_getElem?_getD, List.getElem?_set_ne hij],
      show (l.set j (l.getD j 0 + 1)).getD i 0 = l.getD i 0 by
        simp [List.getD_eq_getElem?_getD, List.getElem?_set_ne (Ne.symm hij)],
      List.set_comm _ _ _ hij]

theorem incrementFD_eq_before (is : IntStats) (v : Int)
    (h : Int.fdiv (v - is.FrequencyDistributionStartingValue) is.BucketSize < 0) :
    incrementFrequencyDistribution is v = bumpBefore is := by
  simp only [incrementFrequencyDistribution]
  rw [if_pos h]

theorem incrementFD_eq_after (is : IntStats) (v : Int)
    (h1 : ¬ Int.fdiv (v - is.FrequencyDistributionStartingValue) is.BucketSize < 0)
    (h2 : (is.FrequencyDistribution.length : Int)
      ≤ Int.fdiv (v - is.FrequencyDistributionStartingValue) is.BucketSize) :
    incrementFrequencyDistribution is v = bumpAfter is := by
  simp only [incrementFrequencyDistribution]
  rw [if_neg h1, if_pos h2]

theorem incrementFD_eq_bucket (is : IntStats) (v : Int)
    (h1 : ¬ Int.fdiv (v - is.FrequencyDistributionStartingValue) is.BucketSize < 0)
    (h2 : ¬ (is.FrequencyDistribution.length : Int)
      ≤ Int.fdiv (v - is.FrequencyDistributionStartingValue) is.BucketSize) :
    incrementFrequencyDistribution is v = bumpFD is v := by
  simp only [incrementFrequencyDistribution]
  rw [if_neg h1, if_neg h2]

theorem incrementFD_comm (is : IntStats) (x y : Int) :
    incrementFrequencyDistribution (incrementFrequencyDistribution is x) y
      = incrementFrequencyDistribution (incrementFrequencyDistribution is y) x := by
  by_cases hx1 : Int.fdiv (x - is.FrequencyDistributionStartingValue) is.BucketSize < 0
  · rw [incrementFD_eq_before is x hx1]
    by_cases hy1 : Int.fdiv (y - is.FrequencyDistributionStartingValue) is.BucketSize < 0
    · rw [incrementFD_eq_before is y hy1]
      exact (incrementFD_eq_before (bumpBefore is) y hy1).trans
        (incrementFD_eq_before (bumpBefore is) x hx1).symm
    · by_cases hy2 : (is.FrequencyDistribution.length : Int)
          ≤ Int.fdiv (y - is.FrequencyDistributionStartingValue) is.BucketSize
      · rw [incrementFD_eq_after is y hy1 hy2]
        exact (incrementFD_eq_after (bumpBefore is) y hy1 hy2).trans
          (incrementFD_eq_before (bumpAfter is) x hx1).symm
      · rw [incrementFD_eq_bucket is y hy1 hy2]
        exact (incrementFD_eq_bucket (bumpBefore is) y hy1 hy2).trans
          (incrementFD_eq_before (bumpFD is y) x hx1).symm
  · by_cases hx2 : (is.FrequencyDistribution.length : Int)
        ≤ Int.fdiv (x - is.FrequencyDistributionStartingValue) is.BucketSize
    · rw [incrementFD_eq_after is x hx1 hx2]
      by_cases hy1 : Int.fdiv (y - is.FrequencyDistributionStartingValue) is.BucketSize < 0
      · rw [incrementFD_eq_before is y hy1]
        exact (incrementFD_eq_before (bumpAfter is) y hy1).trans
          (incrementFD_eq_after (bumpBefore is) x hx1 hx2).symm
      · by_cases hy2 : (is.FrequencyDistribution.length : Int)
            ≤ Int.fdiv (y - is.FrequencyDistributionStartingValue) is.BucketSize
        · rw [incrementFD_eq_after is y hy1 hy2]
          exact (incrementFD_eq_after (bumpAfter is) y hy1 hy2).trans
            (incrementFD_eq_after (bumpAfter is) x hx1 hx2).symm
        · rw [incrementFD_eq_bucket is y hy1 hy2]
          exact (incrementFD_eq_bucket (bumpAfter is) y hy1 hy2).trans
            (incrementFD_eq_after (bumpFD is y) x hx1
              (by simp only [bumpFD, List.length_set]; exact hx2)).symm
    · rw [incrementFD_eq_bucket is x hx1 hx2]
      by_cases hy1 : Int.fdiv (y - is.FrequencyDistributionStartingValue) is.BucketSize < 0
      · rw [incrementFD_eq_before is y hy1]
        exact (incrementFD_eq_before (bumpFD is x) y hy1).trans
          (incrementFD_eq_bucket (bumpBefore is) x hx1 hx2).symm
      · by_cases hy2 : (is.FrequencyDistribution.length : Int)
            ≤ Int.fdiv (y - is.FrequencyDistributionStartingValue) is.BucketSize
        · rw [incrementFD_eq_after is y hy1 hy2]
          exact (incrementFD_eq_after (bumpFD is x) y hy1
              (by simp only [bumpFD, List.length_set]; exact hy2)).trans
            (incrementFD_eq_bucket (bumpAfter is) x hx1 hx2).symm
        · rw [incrementFD_eq_bucket is y hy1 hy2,
            incrementFD_eq_bucket (bumpFD is x) y hy1
              (by simp only [bumpFD, List.length_set]; exact hy2),
            incrementFD_eq_bucket (bumpFD is y) x hx1
              (by simp only [bumpFD, List.length_set]; exact hx2)]
          simp only [bumpFD, bumpOffset]
          exact congrArg (fun fd => { is with FrequencyDistribution := fd })
            (set_incr_comm is.FrequencyDistribution _ _)

/-- Folding the histogram increment over a list is invariant under
permutation of the list. -/
theorem foldl_incrementFD_perm (l1 l2 : List Int) (h : List.Perm l1 l2) :
    ∀ is : IntStats, l1.foldl incrementFrequencyDistribution is
      = l2.foldl incrementFrequencyDistribution is := by
  induction h with
  | nil => intro is; rfl
  | cons x _ ih => intro is; simp only [List.foldl_cons]; exact ih _
  | swap x y l =>
    intro is
    simp only [List.foldl_cons]
    rw [incrementFD_comm]
  | trans _ _ ih1 ih2 => intro is; rw [ih1, ih2]

theorem sortInt_sorted (l : List Int) : List.Sorted (fun x y : Int => x ≤ y) (sortInt l) :=
  List.sorted_insertionSort _ l

theorem sortInt_perm (l : List Int) : List.Perm (sortInt l) l :=
  List.perm_insertionSort _ l

theorem sortInt_idem (l : List Int) : sortInt (sortInt l) = sortInt l :=
  List.Sorted.insertionSort_eq (sortInt_sorted l)

theorem sortInt_length (l : List Int) : (sortInt l).length = l.length :=
  (sortInt_perm l).length_eq

theorem sortInt_eq_nil_iff (l : List Int) : sortInt l = [] ↔ l = [] := by
  constructor
  · intro h
    have hp := sortInt_perm l
    rw [h] at hp
    exact hp.symm.eq_nil
  · intro h
    rw [h]
    rfl

/-- The frequency-distribution component of the stats evolves as a
function of that component alone: increments on two stats records
agreeing on it stay in lockstep. -/
theorem incrementFD_congr (is js : IntStats) (v : Int)
    (hfd : is.FrequencyDistribution = js.FrequencyDistribution)
    (hsize : is.BucketSize = js.BucketSize)
    (hstart : is.FrequencyDistributionStartingValue = js.FrequencyDistributionStartingValue)
    (hob : is.OutlierBefore = js.OutlierBefore)
    (hoa : is.OutlierAfter = js.OutlierAfter) :
    (incrementFrequencyDistribution is v).FrequencyDistribution
      = (incrementFrequencyDistribution js v).FrequencyDistribution ∧
    (incrementFrequencyDistribution is v).BucketSize
      = (incrementFrequencyDistribution js v).BucketSize ∧
    (incrementFrequencyDistribution is v).FrequencyDistributionStartingValue
      = (incrementFrequencyDistribution js v).FrequencyDistributionStartingValue ∧
    (incrementFrequencyDistribution is v).OutlierBefore
      = (incrementFrequencyDistribution js v).OutlierBefore ∧
    (incrementFrequencyDistribution is v).OutlierAfter
      = (incrementFrequencyDistribution js v).OutlierAfter := by
  simp only [incrementFrequencyDistribution, bumpBefore, bumpAfter, bumpFD, bumpOffset,
    hfd, hsize, hstart, hob, hoa]
  split_ifs <;> simp_all

theorem foldl_incrementFD_congr (l : List Int) (is js : IntStats)
    (hfd : is.FrequencyDistribution = js.FrequencyDistribution)
    (hsize : is.BucketSize = js.BucketSize)
    (hstart : is.FrequencyDistributionStartingValue = js.FrequencyDistributionStartingValue)
    (hob : is.OutlierBefore = js.OutlierBefore)
    (hoa : is.OutlierAfter = js.OutlierAfter) :
    (l.foldl incrementFrequencyDistribution is).FrequencyDistribution
      = (l.foldl incrementFrequencyDistribution js).FrequencyDistribution ∧
    (l.foldl incrementFrequencyDistribution is).BucketSize
      = (l.foldl incrementFrequencyDistribution js).BucketSize ∧
    (l.foldl incrementFrequencyDistribution is).FrequencyDistributionStartingValue
      = (l.foldl incrementFrequencyDistribution js).FrequencyDistributionStartingValue ∧
    (l.foldl incrementFrequencyDistribution is).OutlierBefore
      = (l.foldl incrementFrequencyDistribution js).OutlierBefore ∧
    (l.foldl incrementFrequencyDistribution is).OutlierAfter
      = (l.foldl incrementFrequencyDistribution js).OutlierAfter := by
  induction l generalizing is js with
  | nil => exact ⟨hfd, hsize, hstart, hob, hoa⟩
  | cons x t ih =>
    obtain ⟨h1, h2, h3, h4, h5⟩ := incrementFD_congr is js x hfd hsize hstart hob hoa
    simp only [List.foldl_cons]
    exact ih _ _ h1 h2 h3 h4 h5

theorem incrementChecked_fields (is is1 : IntStats) (v : Int)
    (h : incrementChecked is v = some is1) :
    is1.BucketSize = is.BucketSize ∧
    is1.FrequencyDistributionStartingValue = is.FrequencyDistributionStartingValue := by
  unfold incrementChecked at h
  split at h
  · exact absurd h (by simp)
  · obtain rfl : incrementFrequencyDistribution is v = is1 := by injection h
    exact ⟨(incrementFD_fields is v).1, (incrementFD_fields is v).2.1⟩

/-- Characterization of a successful histogram initialization. -/
theorem initFD_eq_some (a b : Accumulator) (h : initializeFrequencyDistribution a = some b) :
    ∃ l0 r, a.remedians = l0 :: r ∧ ¬ a.buckets ≤ 0 ∧
      ¬((initStats a.intStats a.buckets).BucketSize = 0 ∧ l0 ≠ []) ∧
      b.remedians = a.remedians ∧ b.total = a.total ∧
      b.appoximationWindow = a.appoximationWindow ∧ b.buckets = a.buckets ∧
      b.intStats = l0.foldl incrementFrequencyDistribution (initStats a.intStats a.buckets) := by
  unfold initializeFrequencyDistribution at h
  split at h
  · exact absurd h (by simp)
  · rename_i hbk
    split at h
    · exact absurd h (by simp)
    · rename_i l0 r heq
      split at h
      · exact absurd h (by simp)
      · rename_i hguard
        cases h
        exact ⟨l0, r, heq, hbk, hguard, rfl, rfl, rfl, rfl, rfl⟩

/-- Construction of a successful histogram initialization. -/
theorem initFD_eq_some_of (a : Accumulator) (l0 : List Int) (r : List (List Int))
    (h1 : a.remedians = l0 :: r) (h2 : ¬ a.buckets ≤ 0)
    (h3 : ¬((initStats a.intStats a.buckets).BucketSize = 0 ∧ l0 ≠ [])) :
    initializeFrequencyDistribution a
      = some { a with intStats := l0.foldl incrementFrequencyDistribution (initStats a.intStats a.buckets) } := by
  unfold initializeFrequencyDistribution
  rw [if_neg h2, h1]
  simp only []
  rw [if_neg h3]

theorem getLastD_cons_ne (x : List Int) (r : List (List Int)) (d : List Int) (h : r ≠ []) :
    (x :: r).getLastD d = r.getLastD d := by
  cases r with
  | nil => exact absurd rfl h
  | cons y t => rfl

theorem set_last_ne_nil (l : List (List Int)) (x : List Int) (h : l ≠ []) :
    l.set (l.length - 1) x ≠ [] := by
  cases l with
  | nil => exact absurd rfl h
  | cons y t => cases t <;> simp [List.set]

theorem getLastD_set_last (l : List (List Int)) (x d : List Int) (h : l ≠ []) :
    (l.set (l.length - 1) x).getLastD d = x := by
  induction l generalizing d with
  | nil => exact absurd rfl h
  | cons y t ih =>
    cases t with
    | nil => rfl
    | cons z t2 =>
      have hlen : (y :: z :: t2).length - 1 = (z :: t2).length - 1 + 1 := by
        simp [Nat.succ_sub_one]
      rw [hlen]
      simp only [List.set_cons_succ]
      rw [getLastD_cons_ne _ _ _ (set_last_ne_nil (z :: t2) x (by simp))]
      exact ih _ (by simp)

theorem computeMedian_of_ne_nil (l : List Int) (h : l ≠ []) :
    computeMedian l = some ((sortInt l).headD 0, (sortInt l).getLastD 0,
      (sortInt l).getD ((sortInt l).length / 2) 0) := by
  unfold computeMedian
  have hs : sortInt l ≠ [] := by
    intro hc
    exact h ((sortInt_eq_nil_iff l).mp hc)
  rcases hsort : sortInt l with _ | ⟨x, t⟩
  · exact absurd hsort hs
  · simp [hsort]

theorem computeMedian_sortInt (l : List Int) :
    computeMedian (sortInt l) = computeMedian l := by
  unfold computeMedian
  rw [sortInt_idem]

theorem computeMedian_ne_nil (l : List Int) (t : Int × Int × Int)
    (h : computeMedian l = some t) : l ≠ [] := by
  intro hc
  subst hc
  exact absurd h (by simp [computeMedian, sortInt, List.insertionSort])

theorem summarize_eq_cases (a a1 : Accumulator) (h : Summarize a = some a1) :
    ∃ b, summarizeInit a = some b ∧ summarizeBody b = some a1 := by
  unfold Summarize at h
  rcases hsi : summarizeInit a with _ | b
  · rw [hsi] at h; exact absurd h (by simp)
  · rw [hsi] at h
    exact ⟨b, rfl, by simpa using h⟩

theorem summarize_build (a b a1 : Accumulator) (h1 : summarizeInit a = some b)
    (h2 : summarizeBody b = some a1) : Summarize a = some a1 := by
  unfold Summarize
  rw [h1]
  simpa using h2

theorem summarizeInit_of_ge (a : Accumulator)
    (h : ¬ a.intStats.Count < a.appoximationWindow) : summarizeInit a = some a := by
  unfold summarizeInit
  rw [if_neg h]

theorem summarizeInit_of_lt (a : Accumulator)
    (h : a.intStats.Count < a.appoximationWindow) :
    summarizeInit a = initializeFrequencyDistribution a := by
  unfold summarizeInit
  rw [if_pos h]

theorem setMean_remedians (b : Accumulator) : (setMean b).remedians = b.remedians := rfl

theorem setMean_total (b : Accumulator) : (setMean b).total = b.total := rfl

theorem setMean_window (b : Accumulator) :
    (setMean b).appoximationWindow = b.appoximationWindow := rfl

theorem setMean_buckets (b : Accumulator) : (setMean b).buckets = b.buckets := rfl

theorem setMean_Count (b : Accumulator) : (setMean b).intStats.Count = b.intStats.Count := rfl

theorem setMean_Mean (b : Accumulator) :
    (setMean b).intStats.Mean = Int.tdiv b.total b.intStats.Count := rfl

theorem setMean_eq_self (b : Accumulator)
    (h : b.intStats.Mean = Int.tdiv b.total b.intStats.Count) : setMean b = b := by
  unfold setMean
  ext1 <;> simp only []
  ext1 <;> simp only []
  exact h.symm

theorem summarizeMedian_remedians (c : Accumulator) (t : Int × Int × Int) :
    (summarizeMedian c t).remedians
      = c.remedians.set (c.remedians.length - 1) (sortInt (c.remedians.getLastD [])) := rfl

theorem summarizeMedian_Median (c : Accumulator) (t : Int × Int × Int) :
    (summarizeMedian c t).intStats.Median = t.2.2 := rfl

theorem summarizeBody_eq_cases (b a1 : Accumulator) (h : summarizeBody b = some a1) :
    b.intStats.Count ≠ 0 ∧
    ((b.remedians = [] ∧ a1 = setMean b) ∨
     (∃ l0 r t, b.remedians = l0 :: r ∧
        computeMedian ((l0 :: r).getLastD []) = some t ∧
        a1 = summarizeMedian (setMean b) t)) := by
  unfold summarizeBody at h
  by_cases hcnt : b.intStats.Count = 0
  · rw [if_pos hcnt] at h; exact absurd h (by simp)
  · rw [if_neg hcnt] at h
    refine ⟨hcnt, ?_⟩
    rcases hrem : b.remedians with _ | ⟨l0, r⟩
    · left
      simp only [setMean_remedians, hrem] at h
      simp only [Option.some.injEq] at h
      exact ⟨rfl, h.symm⟩
    · right
      simp only [setMean_remedians, hrem] at h
      rcases hcm : computeMedian ((l0 :: r).getLastD []) with _ | t
      · rw [hcm] at h; exact absurd h (by simp)
      · rw [hcm] at h
        simp only [Option.map_some', Option.some.injEq] at h
        exact ⟨l0, r, t, rfl, hcm, h.symm⟩

theorem summarizeBody_build_nil (b : Accumulator) (hcnt : ¬ b.intStats.Count = 0)
    (hrem : b.remedians = []) : summarizeBody b = some (setMean b) := by
  unfold summarizeBody
  rw [if_neg hcnt]
  simp only [setMean_remedians, hrem]

theorem summarizeBody_build_cons (b : Accumulator) (y : List Int) (ys : List (List Int))
    (t : Int × Int × Int) (hcnt : ¬ b.intStats.Count = 0) (hrem : b.remedians = y :: ys)
    (hcm : computeMedian ((y :: ys).getLastD []) = some t) :
    summarizeBody b = some (summarizeMedian (setMean b) t) := by
  unfold summarizeBody
  rw [if_neg hcnt]
  simp only [setMean_remedians, hrem, hcm, Option.map_some']

theorem observeValue_fields (is : IntStats) (v : Int) :
    (observeValue is v).Count = is.Count + 1 ∧
    (observeValue is v).FrequencyDistribution = is.FrequencyDistribution ∧
    (observeValue is v).BucketSize = is.BucketSize ∧
    (observeValue is v).FrequencyDistributionStartingValue
      = is.FrequencyDistributionStartingValue ∧
    (observeValue is v).Mean = is.Mean ∧
    (observeValue is v).Median = is.Median ∧
    (observeValue is v).OutlierBefore = is.OutlierBefore ∧
    (observeValue is v).OutlierAfter = is.OutlierAfter := by
  simp only [observeValue]
  split_ifs <;> simp

theorem addFrequencyStep_no_init (a1 a2 : Accumulator) (v : Int)
    (hcnt : a1.intStats.Count ≠ a1.appoximationWindow)
    (h : addFrequencyStep a1 v = some a2) :
    a2.intStats.BucketSize = a1.intStats.BucketSize ∧
    a2.intStats.FrequencyDistributionStartingValue
      = a1.intStats.FrequencyDistributionStartingValue := by
  unfold addFrequencyStep at h
  by_cases hfd : 0 < a1.intStats.FrequencyDistribution.length
  · rw [if_pos hfd] at h
    rcases hic : incrementChecked a1.intStats v with _ | is3
    · rw [hic] at h; exact absurd h (by simp)
    · rw [hic] at h
      simp only [Option.map_some'] at h
      obtain ⟨h1, h2⟩ := incrementChecked_fields _ _ _ hic
      cases h
      exact ⟨h1, h2⟩
  · rw [if_neg hfd, if_neg hcnt] at h
    cases h
    exact ⟨rfl, rfl⟩

/-- Unfolding of a successful Add into its three stages. -/
theorem Add_eq_some (a b : Accumulator) (v : Int) (h : Add a v = some b) :
    ∃ a2 rem,
      addFrequencyStep (addObserve a v) v = some a2 ∧
      pushMedianValue a2.appoximationWindow (a2.remedians.length + 2) a2.remedians 0 v
        = some rem ∧
      b = addValueFrequencyStep a2 rem v := by
  unfold Add at h
  rcases hfs : addFrequencyStep (addObserve a v) v with _ | a2
  · rw [hfs] at h; exact absurd h (by simp)
  · rw [hfs] at h
    simp only [Option.some_bind] at h
    rcases hp : pushMedianValue a2.appoximationWindow (a2.remedians.length + 2)
        a2.remedians 0 v with _ | rem
    · rw [hp] at h; exact absurd h (by simp)
    · rw [hp] at h
      simp only [Option.map_some'] at h
      cases h
      exact ⟨a2, rem, rfl, hp, rfl⟩

/-- Claim C6, amended: once Count has reached the window, Add,
Summarize and GetStats never change the bucket size or the starting
value of the frequency distribution (the re-initialization path is
only reachable while Count < window). -/
theorem C6_window_reached_stability (a : Accumulator) (v : Int)
    (h : a.appoximationWindow ≤ a.intStats.Count) :
    (Add a v).map (fun b =>
        (b.intStats.BucketSize, b.intStats.FrequencyDistributionStartingValue))
      = (Add a v).map (fun _ =>
        (a.intStats.BucketSize, a.intStats.FrequencyDistributionStartingValue)) ∧
    (Summarize a).map (fun b =>
        (b.intStats.BucketSize, b.intStats.FrequencyDistributionStartingValue))
      = (Summarize a).map (fun _ =>
        (a.intStats.BucketSize, a.intStats.FrequencyDistributionStartingValue)) ∧
    (GetStats a).map (fun p =>
        (p.1.BucketSize, p.1.FrequencyDistributionStartingValue))
      = (GetStats a).map (fun _ =>
        (a.intStats.BucketSize, a.intStats.FrequencyDistributionStartingValue)) := by
  have hsum : (Summarize a).map (fun b =>
        (b.intStats.BucketSize, b.intStats.FrequencyDistributionStartingValue))
      = (Summarize a).map (fun _ =>
        (a.intStats.BucketSize, a.intStats.FrequencyDistributionStartingValue)) := by
    unfold Summarize summarizeInit
    rw [if_neg (not_lt.mpr h)]
    simp only [Option.some_bind]
    unfold summarizeBody
    split
    · rfl
    · split
      · rfl
      · rcases hcm : computeMedian _ with _ | t
        · rfl
        · rfl
  refine ⟨?_, hsum, ?_⟩
  · rcases hadd : Add a v with _ | b
    · rfl
    · obtain ⟨a2, rem, hfs, hp, rfl⟩ := Add_eq_some a b v hadd
      have hobs := observeValue_fields a.intStats v
      have hno : (addObserve a v).intStats.Count ≠ (addObserve a v).appoximationWindow := by
        simp only [addObserve, hobs.1]
        omega
      obtain ⟨h1, h2⟩ := addFrequencyStep_no_init _ _ _ hno hfs
      simp only [Option.map_some']
      refine congrArg some ?_
      simp only [addValueFrequencyStep, addObserve] at h1 h2 ⊢
      rw [h1, h2, hobs.2.2.1, hobs.2.2.2.1]
  · unfold GetStats
    rw [Option.map_map, Option.map_map]
    exact hsum

/-- Witness for the amended C6 theorem at a concrete accumulator whose
count (2) has reached its window (2). -/
theorem C6_stability_witness :
    (Add accWindowReached 7).map (fun b =>
        (b.intStats.BucketSize, b.intStats.FrequencyDistributionStartingValue))
      = (Add accWindowReached 7).map (fun _ =>
        (accWindowReached.intStats.BucketSize,
         accWindowReached.intStats.FrequencyDistributionStartingValue)) ∧
    (Summarize accWindowReached).map (fun b =>
        (b.intStats.BucketSize, b.intStats.FrequencyDistributionStartingValue))
      = (Summarize accWindowReached).map (fun _ =>
        (accWindowReached.intStats.BucketSize,
         accWindowReached.intStats.FrequencyDistributionStartingValue)) ∧
    (GetStats accWindowReached).map (fun p =>
        (p.1.BucketSize, p.1.FrequencyDistributionStartingValue))
      = (GetStats accWindowReached).map (fun _ =>
        (accWindowReached.intStats.BucketSize,
         accWindowReached.intStats.FrequencyDistributionStartingValue)) :=
  C6_window_reached_stability accWindowReached 7 (by decide)

/-- Claim C9: for every stats value and every non-negative n, the
term-frequency report returns exactly min(n, number of distinct
tracked values) pairs, sorted by non-increasing frequency. -/
theorem C9_top_frequencies (is : IntStats) (n : Int) (h : 0 ≤ n) :
    (GetTermFrequency is n).isSome ∧
    ((GetTermFrequency is n).getD []).length = min n.toNat is.ValueFrequency.length ∧
    List.Sorted pairGE ((GetTermFrequency is n).getD []) := by
  have hsorted := List.sorted_insertionSort pairGE
    (is.ValueFrequency.map (fun p => Pair.mk p.1 p.2))
  have hlen : (List.insertionSort pairGE
      (is.ValueFrequency.map (fun p => Pair.mk p.1 p.2))).length
      = is.ValueFrequency.length := by
    rw [List.length_insertionSort, List.length_map]
  simp only [GetTermFrequency]
  by_cases hgt : n > (is.ValueFrequency.length : Int)
  · rw [if_pos hgt, if_neg (by omega)]
    refine ⟨by simp, ?_, ?_⟩
    · simp only [Option.getD_some, List.length_take, hlen]
      omega
    · simp only [Option.getD_some]
      exact (List.sorted_insertionSort pairGE _).sublist (List.take_sublist _ _)
  · rw [if_neg hgt, if_neg (by omega)]
    refine ⟨by simp, ?_, ?_⟩
    · simp only [Option.getD_some, List.length_take, hlen]
      try omega
    · simp only [Option.getD_some]
      exact (List.sorted_insertionSort pairGE _).sublist (List.take_sublist _ _)

/-- Witness for C9 at a concrete stats value and n = 2. -/
theorem C9_top_frequencies_witness :
    (GetTermFrequency statsTermFreq 2).isSome ∧
    ((GetTermFrequency statsTermFreq 2).getD []).length
      = min (2 : Int).toNat statsTermFreq.ValueFrequency.length ∧
    List.Sorted pairGE ((GetTermFrequency statsTermFreq 2).getD []) :=
  C9_top_frequencies statsTermFreq 2 (by decide)

end Cruncher

namespace Cruncher

/-- Claim C1: the spec requires finalize and snapshot on an accumulator
with zero added values to surface an EmptyDatasetError and to guard
the division total by count.  The source has no such error type and
no guard: Summarize on a fresh accumulator indexes the empty remedians
slice inside initializeFrequencyDistribution (and would divide total
by a zero count right after), a run-time panic, modelled as none, and
GetStats panics the same way.  This theorem evaluates the code at the
failing input. -/
theorem C1_empty_finalize_panics :
    Summarize (NewAccumulator 1000 5) = none ∧ GetStats (NewAccumulator 1000 5) = none := by
  constructor
  · rfl
  · rfl

/-- Claim C2: the spec requires a snapshot to share no mutable storage
with the live accumulator.  In the reference-semantics model of the
source, the struct copy returned by GetStats keeps the same slice and
map handles, so one further Add mutates the storage the snapshot
points at: the snapshot taken after adding one 5 views histogram
contents of one and frequency entry five maps-to one, and after a
second Add of 5 the very same snapshot record views two and five
maps-to two.  This theorem evaluates the code at the failing input. -/
theorem C2_snapshot_shares_storage :
    c2snap.map (fun q => (readSlice q.1 q.2.2.FrequencyDistribution,
      readMap q.1 q.2.2.ValueFrequency)) = some ([1, 0], [(5, 1)]) ∧
    c2after.map (fun q => (readSlice q.1 q.2.2.FrequencyDistribution,
      readMap q.1 q.2.2.ValueFrequency)) = some ([2, 0], [(5, 2)]) := by
  constructor
  · rfl
  · rfl

/-- Claim C4: on the stream 1, 2, 4 with window 1000 and 5 buckets the
spec and the repository test expect min 1, max 4, count 3, median 2
and mean 7/3 = 2.333...; the source computes the mean by the integer
division total / count before converting to float, so it reports mean
2 exactly, while min, max, count and median agree.  This theorem
evaluates the code at the failing input (the Mean field holds the
integer quotient the Go float is produced from). -/
theorem C4_scenario_truncated_mean :
    ((runAdds (NewAccumulator 1000 5) [1, 2, 4]).bind Summarize).map
      (fun a => (a.intStats.Min, a.intStats.Max, a.intStats.Count,
                 a.intStats.Mean, a.intStats.Median)) = some (1, 4, 3, 2, 2) := by
  rfl

/-- Claim C5, counterexample: the claim says constructing with a
non-positive window fails eagerly with InvalidConfigurationError and
construction succeeds only when both parameters are positive.  The
source constructor never fails: with window 0 it returns an ordinary
accumulator that stores the parameters unchanged. -/
theorem C5_counterexample :
    NewAccumulator 0 5 =
      { intStats := zeroStats, remedians := [], total := 0,
        appoximationWindow := 0, buckets := 5 } := by
  rfl

/-- Claim C5, amended: NewAccumulator performs no validation at all;
for every window and bucket count, positive or not, it returns the
accumulator holding those parameters with empty state, and invalid
configurations only fail later (for example the first Add with window
zero never terminates, modelled none). -/
theorem C5_no_validation :
    ∀ w b : Int,
      NewAccumulator w b =
        { intStats := zeroStats, remedians := [], total := 0,
          appoximationWindow := w, buckets := b } ∧
      Add (NewAccumulator 0 5) 7 = none := by
  intro w b
  exact ⟨rfl, rfl⟩

/-- Claim C3, counterexample: with window 2, 2 buckets and the stream
0, 1 the claim asserts bucket counts plus outliers equal the count 2,
but after finalize they total 1: the value whose ingestion makes the
count reach the window is pushed into the level-0 buffer only after
the histogram was initialized from that buffer, so it is never
replayed nor incremented. -/
theorem C3_counterexample :
    ((runAdds (NewAccumulator 2 2) [0, 1]).bind Summarize).map
      (fun a => decide (histogramTotal a.intStats = a.intStats.Count)) = some false ∧
    ((runAdds (NewAccumulator 2 2) [0, 1]).bind Summarize).map
      (fun a => (histogramTotal a.intStats, a.intStats.Count)) = some (1, 2) := by
  constructor
  · rfl
  · rfl

/-- Claim C6, counterexample: the claim says that once the histogram
is initialized, also when the initialization came from a finalize on
a stream shorter than the window, the starting value and bucket size
never change under further add and finalize calls, and that
initialization happens exactly once.  The source re-initializes on
every Summarize while the count is below the window: after adding 5
and finalizing, the bucket size is 1; after adding 100 and finalizing
again it is 20. -/
theorem C6_counterexample :
    ((Add (NewAccumulator 1000 5) 5).bind Summarize).map
      (fun a => a.intStats.BucketSize) = some 1 ∧
    (((((Add (NewAccumulator 1000 5) 5).bind Summarize).bind
        (fun a => Add a 100)).bind Summarize)).map
      (fun a => a.intStats.BucketSize) = some 20 ∧
    (1 : Int) ≠ 20 := by
  refine ⟨rfl, rfl, by decide⟩

end Cruncher

namespace Cruncher

theorem initStats_fields (is : IntStats) (bq : Int) :
    (initStats is bq).Min = is.Min ∧ (initStats is bq).Max = is.Max ∧
    (initStats is bq).Count = is.Count ∧ (initStats is bq).Mean = is.Mean ∧
    (initStats is bq).Median = is.Median ∧
    (initStats is bq).ValueFrequency = is.ValueFrequency ∧
    (initStats is bq).FrequencyDistribution = List.replicate bq.toNat 0 ∧
    (initStats is bq).BucketSize = ceilDivInt (is.Max - is.Min + 1) bq ∧
    (initStats is bq).FrequencyDistributionStartingValue = is.Min ∧
    (initStats is bq).OutlierBefore = 0 ∧ (initStats is bq).OutlierAfter = 0 :=
  ⟨rfl, rfl, rfl, rfl, rfl, rfl, rfl, rfl, rfl, rfl, rfl⟩

theorem summarizeBody_fixpoint (b : Accumulator) (t : Int × Int × Int)
    (l0 : List Int) (r : List (List Int))
    (hcnt : ¬ b.intStats.Count = 0)
    (hrem : b.remedians = l0 :: r)
    (hcm : computeMedian ((l0 :: r).getLastD []) = some t) :
    summarizeBody (summarizeMedian (setMean b) t) = some (summarizeMedian (setMean b) t) := by
  have hcons_ne : (l0 :: r) ≠ [] := by simp
  have hrem1 : (summarizeMedian (setMean b) t).remedians
      = (l0 :: r).set ((l0 :: r).length - 1) (sortInt ((l0 :: r).getLastD [])) := by
    rw [summarizeMedian_remedians]
    simp only [setMean_remedians, hrem]
  have hne : (summarizeMedian (setMean b) t).remedians ≠ [] := by
    rw [hrem1]
    exact set_last_ne_nil _ _ hcons_ne
  obtain ⟨y, ys, hys⟩ : ∃ y ys, (summarizeMedian (setMean b) t).remedians = y :: ys := by
    rcases hx : (summarizeMedian (setMean b) t).remedians with _ | ⟨y, ys⟩
    · exact absurd hx hne
    · exact ⟨y, ys, rfl⟩
  have hlast1 : (summarizeMedian (setMean b) t).remedians.getLastD []
      = sortInt ((l0 :: r).getLastD []) := by
    rw [hrem1]
    exact getLastD_set_last _ _ _ hcons_ne
  have hcm1 : computeMedian ((y :: ys).getLastD []) = some t := by
    rw [← hys, hlast1, computeMedian_sortInt]
    exact hcm
  have hsm : setMean (summarizeMedian (setMean b) t) = summarizeMedian (setMean b) t :=
    setMean_eq_self _ rfl
  rw [summarizeBody_build_cons (summarizeMedian (setMean b) t) y ys t hcnt hys hcm1]
  congr 1
  rw [hsm]
  ext1
  · ext1 <;> rfl
  · rw [summarizeMedian_remedians, hlast1, sortInt_idem, hrem1, List.length_set, List.set_set]
  · rfl
  · rfl
  · rfl

theorem initFD_fixpoint (a b : Accumulator) (t : Int × Int × Int)
    (l0 : List Int) (r : List (List Int))
    (hsi : initializeFrequencyDistribution a = some b)
    (hrem : b.remedians = l0 :: r)
    (hcm : computeMedian ((l0 :: r).getLastD []) = some t) :
    initializeFrequencyDistribution (summarizeMedian (setMean b) t)
      = some (summarizeMedian (setMean b) t) := by
  obtain ⟨l0a, ra, harem, hbk, hguard, hbrem, hbtot, hbwin, hbbk, hbstats⟩ :=
    initFD_eq_some a b hsi
  rw [hrem, harem] at hbrem
  injection hbrem with h1 h2
  subst h1
  subst h2
  have hcons_ne : (l0 :: r) ≠ [] := by simp
  have hFf := foldl_incrementFD_fields l0 (initStats a.intStats a.buckets)
  have hisf := initStats_fields a.intStats a.buckets
  -- scalar fields of b in terms of a
  have hbMin : b.intStats.Min = a.intStats.Min := by
    rw [hbstats, hFf.2.2.1, hisf.1]
  have hbMax : b.intStats.Max = a.intStats.Max := by
    rw [hbstats, hFf.2.2.2.1, hisf.2.1]
  -- remedians of the candidate state
  have hrem1 : (summarizeMedian (setMean b) t).remedians
      = (l0 :: r).set ((l0 :: r).length - 1) (sortInt ((l0 :: r).getLastD [])) := by
    rw [summarizeMedian_remedians]
    simp only [setMean_remedians, hrem]
  -- the head of the new remedians is a permutation of l0
  obtain ⟨l0b, rb, hconsb, hpermb, hnilb⟩ : ∃ l0b rb,
      (summarizeMedian (setMean b) t).remedians = l0b :: rb ∧ List.Perm l0b l0 ∧
      (l0b = [] ↔ l0 = []) := by
    rcases r with _ | ⟨r0, rr⟩
    · refine ⟨sortInt l0, [], ?_, ?_, ?_⟩
      · rw [hrem1]
        rfl
      · exact sortInt_perm l0
      · exact sortInt_eq_nil_iff l0
    · refine ⟨l0, (r0 :: rr).set ((r0 :: rr).length - 1) (sortInt ((l0 :: r0 :: rr).getLastD [])), ?_, List.Perm.refl l0, Iff.rfl⟩
      rw [hrem1]
      rfl
  -- bucket parameters of the candidate agree with those of a
  have hbkb : ¬ (summarizeMedian (setMean b) t).buckets ≤ 0 := by
    have : (summarizeMedian (setMean b) t).buckets = b.buckets := rfl
    rw [this, hbbk]
    exact hbk
  have hsize_eq : (initStats (summarizeMedian (setMean b) t).intStats
      (summarizeMedian (setMean b) t).buckets).BucketSize
      = (initStats a.intStats a.buckets).BucketSize := by
    have h1 : (summarizeMedian (setMean b) t).intStats.Max = b.intStats.Max := rfl
    have h2 : (summarizeMedian (setMean b) t).intStats.Min = b.intStats.Min := rfl
    have h3 : (summarizeMedian (setMean b) t).buckets = b.buckets := rfl
    rw [(initStats_fields _ _).2.2.2.2.2.2.2.1, (initStats_fields _ _).2.2.2.2.2.2.2.1,
      h1, h2, h3, hbMin, hbMax, hbbk]
  have hguardb : ¬ ((initStats (summarizeMedian (setMean b) t).intStats
      (summarizeMedian (setMean b) t).buckets).BucketSize = 0 ∧ l0b ≠ []) := by
    rw [hsize_eq]
    intro hc
    exact hguard ⟨hc.1, fun hn => hc.2 (hnilb.mpr hn)⟩
  rw [initFD_eq_some_of (summarizeMedian (setMean b) t) l0b rb hconsb hbkb hguardb]
  congr 1
  ext1
  · -- intStats agree
    have hGf := foldl_incrementFD_fields l0b
      (initStats (summarizeMedian (setMean b) t).intStats (summarizeMedian (setMean b) t).buckets)
    have hisg := initStats_fields (summarizeMedian (setMean b) t).intStats
      (summarizeMedian (setMean b) t).buckets
    -- component equalities between the two initial states
    have hcongr := foldl_incrementFD_congr l0b
      (initStats (summarizeMedian (setMean b) t).intStats (summarizeMedian (setMean b) t).buckets)
      (initStats a.intStats a.buckets)
      (by rw [hisg.2.2.2.2.2.2.1, hisf.2.2.2.2.2.2.1]
          have h3 : (summarizeMedian (setMean b) t).buckets = b.buckets := rfl
          rw [h3, hbbk])
      hsize_eq
      (by rw [hisg.2.2.2.2.2.2.2.2.1, hisf.2.2.2.2.2.2.2.2.1]
          have h2 : (summarizeMedian (setMean b) t).intStats.Min = b.intStats.Min := rfl
          rw [h2, hbMin])
      (by rw [hisg.2.2.2.2.2.2.2.2.2.1, hisf.2.2.2.2.2.2.2.2.2.1])
      (by rw [hisg.2.2.2.2.2.2.2.2.2.2, hisf.2.2.2.2.2.2.2.2.2.2])
    have hperm := foldl_incrementFD_perm l0b l0 hpermb (initStats a.intStats a.buckets)
    ext1
    · rw [hGf.2.2.1, hisg.1]
    · rw [hGf.2.2.2.1, hisg.2.1]
    · rw [hGf.2.2.2.2.1, hisg.2.2.1]
    · rw [hGf.2.2.2.2.2.1, hisg.2.2.2.1]
    · rw [hGf.2.2.2.2.2.2.1, hisg.2.2.2.2.1]
    · rw [hcongr.1, hperm]
      have : (summarizeMedian (setMean b) t).intStats.FrequencyDistribution
          = b.intStats.FrequencyDistribution := rfl
      rw [this, hbstats]
    · rw [hcongr.2.1, hperm]
      have : (summarizeMedian (setMean b) t).intStats.BucketSize = b.intStats.BucketSize := rfl
      rw [this, hbstats]
    · rw [hcongr.2.2.1, hperm]
      have : (summarizeMedian (setMean b) t).intStats.FrequencyDistributionStartingValue
          = b.intStats.FrequencyDistributionStartingValue := rfl
      rw [this, hbstats]
    · rw [hcongr.2.2.2.1, hperm]
      have : (summarizeMedian (setMean b) t).intStats.OutlierBefore
          = b.intStats.OutlierBefore := rfl
      rw [this, hbstats]
    · rw [hcongr.2.2.2.2, hperm]
      have : (summarizeMedian (setMean b) t).intStats.OutlierAfter
          = b.intStats.OutlierAfter := rfl
      rw [this, hbstats]
    · rw [hGf.2.2.2.2.2.2.2.1, hisg.2.2.2.2.2.1]
  · rfl
  · rfl
  · rfl
  · rfl

end Cruncher

namespace Cruncher

/-- Claim C8: for every accumulator with at least one ingested value
(expressed by a successful first finalize), calling finalize or
snapshot twice in a row with no intervening add yields identical
results both times: the state produced by the first Summarize is a
fixed point of Summarize, and the snapshot returned by a second
GetStats is the same stats record the first returned. -/
theorem C8_finalize_idempotent (a a1 : Accumulator) (h : Summarize a = some a1) :
    Summarize a1 = some a1 ∧ GetStats a = some (a1.intStats, a1) ∧
    GetStats a1 = some (a1.intStats, a1) := by
  have hmain : Summarize a1 = some a1 := by
    obtain ⟨b, hsi, hbody⟩ := summarize_eq_cases a a1 h
    obtain ⟨hcnt, hcases⟩ := summarizeBody_eq_cases b a1 hbody
    by_cases hlt : a.intStats.Count < a.appoximationWindow
    · rw [summarizeInit_of_lt a hlt] at hsi
      obtain ⟨l0a, ra, harem, hbk, hguard, hbrem, hbtot, hbwin, hbbk, hbstats⟩ :=
        initFD_eq_some a b hsi
      rcases hcases with ⟨hremnil, ha1⟩ | ⟨l0, r, t, hremcons, hcm, ha1⟩
      · rw [hbrem, harem] at hremnil
        exact absurd hremnil (by simp)
      · subst ha1
        have hFf := foldl_incrementFD_fields l0a (initStats a.intStats a.buckets)
        have hbCount : b.intStats.Count = a.intStats.Count := by
          rw [hbstats, hFf.2.2.2.2.1, (initStats_fields _ _).2.2.1]
        have hlt1 : (summarizeMedian (setMean b) t).intStats.Count
            < (summarizeMedian (setMean b) t).appoximationWindow := by
          have h1 : (summarizeMedian (setMean b) t).intStats.Count = b.intStats.Count := rfl
          have h2 : (summarizeMedian (setMean b) t).appoximationWindow
              = b.appoximationWindow := rfl
          rw [h1, h2, hbCount, hbwin]
          exact hlt
        refine summarize_build _ (summarizeMedian (setMean b) t) _ ?_ ?_
        · rw [summarizeInit_of_lt _ hlt1]
          exact initFD_fixpoint a b t l0 r hsi hremcons hcm
        · exact summarizeBody_fixpoint b t l0 r hcnt hremcons hcm
    · rw [summarizeInit_of_ge a hlt] at hsi
      have hba : a = b := by injection hsi
      subst hba
      rcases hcases with ⟨hremnil, ha1⟩ | ⟨l0, r, t, hremcons, hcm, ha1⟩
      · subst ha1
        refine summarize_build _ (setMean a) _ ?_ ?_
        · exact summarizeInit_of_ge _ hlt
        · rw [summarizeBody_build_nil (setMean a) hcnt
            ((setMean_remedians a).trans hremnil)]
          rw [setMean_eq_self (setMean a) rfl]
      · subst ha1
        refine summarize_build _ (summarizeMedian (setMean a) t) _ ?_ ?_
        · exact summarizeInit_of_ge _ hlt
        · exact summarizeBody_fixpoint a t l0 r hcnt hremcons hcm
  refine ⟨hmain, ?_, ?_⟩
  · unfold GetStats
    rw [h]
    rfl
  · unfold GetStats
    rw [hmain]
    rfl

end Cruncher

namespace Cruncher

/-- Witness for C8 at the concrete accumulator fed 1, 2, 4. -/
theorem C8_idempotent_witness :
    Summarize accRun124F = some accRun124F ∧
    GetStats accRun124 = some (accRun124F.intStats, accRun124F) ∧
    GetStats accRun124F = some (accRun124F.intStats, accRun124F) :=
  C8_finalize_idempotent accRun124 accRun124F (by rfl)

end Cruncher

namespace Cruncher

theorem set_ne_nil (l : List (List Int)) (i : Nat) (x : List Int) (h : l ≠ []) :
    l.set i x ≠ [] := by
  cases l with
  | nil => exact absurd rfl h
  | cons y t => cases i <;> simp

theorem getD_mem (l : List Int) (i : Nat) (d : Int) (h : i < l.length) : l.getD i d ∈ l := by
  simp only [List.getD_eq_getElem?_getD, List.getElem?_eq_getElem h, Option.getD_some]
  exact List.getElem_mem h

theorem getD_mem_lists (l : List (List Int)) (i : Nat) (h : i < l.length) :
    l.getD i [] ∈ l := by
  simp only [List.getD_eq_getElem?_getD, List.getElem?_eq_getElem h, Option.getD_some]
  exact List.getElem_mem h

theorem getLastD_mem (l : List (List Int)) (d : List Int) (h : l ≠ []) :
    l.getLastD d ∈ l := by
  induction l generalizing d with
  | nil => exact absurd rfl h
  | cons y t ih =>
    cases t with
    | nil => simp
    | cons z t2 =>
      rw [getLastD_cons_ne _ _ _ (by simp)]
      exact List.mem_cons_of_mem y (ih _ (by simp))

theorem getLastD_set_of_lt (l : List (List Int)) (i : Nat) (x d : List Int)
    (h : i + 1 < l.length) : (l.set i x).getLastD d = l.getLastD d := by
  induction l generalizing i d with
  | nil => simp at h
  | cons y t ih =>
    cases i with
    | zero =>
      cases t with
      | nil => simp at h
      | cons z t2 =>
        rw [List.set_cons_zero, getLastD_cons_ne x (z :: t2) d (by simp),
          getLastD_cons_ne y (z :: t2) d (by simp)]
    | succ i2 =>
      rw [List.set_cons_succ]
      have ht : t ≠ [] := by
        intro hc
        rw [hc] at h
        simp at h
      rw [getLastD_cons_ne _ _ _ (set_ne_nil _ _ _ ht), getLastD_cons_ne _ _ _ ht]
      exact ih _ _ (by simpa using h)

theorem computeMedian_median_mem (l : List Int) (t : Int × Int × Int)
    (h : computeMedian l = some t) : t.2.2 ∈ l := by
  have hne := computeMedian_ne_nil l t h
  rw [computeMedian_of_ne_nil l hne] at h
  have h22 : t.2.2 = (sortInt l).getD ((sortInt l).length / 2) 0 := by
    cases h.symm
    rfl
  have hlen : (sortInt l).length / 2 < (sortInt l).length := by
    have : (sortInt l).length = l.length := sortInt_length l
    have hpos : 0 < l.length := List.length_pos.mpr hne
    omega
  rw [h22]
  exact (sortInt_perm l).mem_iff.mp (getD_mem _ _ _ hlen)

theorem pushMedianValue_none_of_nonpos (w : Int) (hw : w ≤ 0) :
    ∀ (f : Nat) (levels : List (List Int)) (off : Nat) (v : Int),
      pushMedianValue w f levels off v = none := by
  intro f
  induction f with
  | zero => intro levels off v; rfl
  | succ f ih =>
    intro levels off v
    unfold pushMedianValue
    simp only []
    generalize (if levels.length ≤ off then levels ++ [[]] else levels) = levels1
    split
    · rfl
    · rw [if_pos (by
        have hlen : (0 : Int) < ((levels1.getD off [] ++ [v]).length : Int) := by
          simp only [List.length_append, List.length_cons, List.length_nil]
          omega
        omega)]
      rcases hcm : computeMedian (levels1.getD off [] ++ [v]) with _ | t
      · rfl
      · simp only [ih, Option.map_none']

end Cruncher

namespace Cruncher

theorem pushMedianValue_length (w : Int) :
    ∀ (f : Nat) (levels : List (List Int)) (off : Nat) (v : Int) (out : List (List Int)),
      pushMedianValue w f levels off v = some out →
      levels.length ≤ out.length ∧ off + 1 ≤ out.length := by
  intro f
  induction f with
  | zero =>
    intro levels off v out h
    exact absurd h (by simp [pushMedianValue])
  | succ f ih =>
    intro levels off v out h
    unfold pushMedianValue at h
    simp only [] at h
    set levels1 := if levels.length ≤ off then levels ++ [[]] else levels with hlv
    have hd : levels.length ≤ levels1.length := by
      rw [hlv]
      split <;> simp
    split at h
    · exact absurd h (by simp)
    · rename_i hoff
      split at h
      · rcases hcm : computeMedian (levels1.getD off [] ++ [v]) with _ | t
        · rw [hcm] at h
          exact absurd h (by simp)
        · rw [hcm] at h
          simp only [] at h
          rcases hrec : pushMedianValue w f (levels1.set off (levels1.getD off [] ++ [v]))
              (off + 1) t.2.2 with _ | l3
          · rw [hrec] at h
            exact absurd h (by simp)
          · rw [hrec] at h
            simp only [Option.map_some', Option.some.injEq] at h
            obtain ⟨ih1, ih2⟩ := ih _ _ _ _ hrec
            subst h
            simp only [List.length_set] at ih1 ih2 ⊢
            omega
      · cases h
        simp only [List.length_set]
        omega

end Cruncher

namespace Cruncher

theorem pushMedianValue_mem (P : Int → Prop) (w : Int) :
    ∀ (f : Nat) (levels : List (List Int)) (off : Nat) (v : Int) (out : List (List Int)),
      (∀ buf ∈ levels, ∀ x ∈ buf, P x) → P v →
      pushMedianValue w f levels off v = some out →
      ∀ buf ∈ out, ∀ x ∈ buf, P x := by
  intro f
  induction f with
  | zero =>
    intro levels off v out _ _ h
    exact absurd h (by simp [pushMedianValue])
  | succ f ih =>
    intro levels off v out hlev hv h
    unfold pushMedianValue at h
    simp only [] at h
    set levels1 := if levels.length ≤ off then levels ++ [[]] else levels with hlv
    have hlev1 : ∀ buf ∈ levels1, ∀ x ∈ buf, P x := by
      rw [hlv]
      split
      · intro buf hb
        rcases List.mem_append.mp hb with hb1 | hb1
        · exact hlev buf hb1
        · intro x hx
          simp only [List.mem_singleton] at hb1
          subst hb1
          simp at hx
      · exact hlev
    split at h
    · exact absurd h (by simp)
    · rename_i hoff
      push_neg at hoff
      have hbuf : ∀ x ∈ levels1.getD off [] ++ [v], P x := by
        intro x hx
        rcases List.mem_append.mp hx with hx1 | hx1
        · exact hlev1 _ (getD_mem_lists levels1 off hoff) x hx1
        · simp only [List.mem_singleton] at hx1
          subst hx1
          exact hv
      have hlev2 : ∀ buf ∈ levels1.set off (levels1.getD off [] ++ [v]), ∀ x ∈ buf, P x := by
        intro buf hb
        rcases List.mem_or_eq_of_mem_set hb with hb1 | hb1
        · exact hlev1 buf hb1
        · subst hb1
          exact hbuf
      split at h
      · rcases hcm : computeMedian (levels1.getD off [] ++ [v]) with _ | t
        · rw [hcm] at h
          exact absurd h (by simp)
        · rw [hcm] at h
          simp only [] at h
          rcases hrec : pushMedianValue w f (levels1.set off (levels1.getD off [] ++ [v]))
              (off + 1) t.2.2 with _ | l3
          · rw [hrec] at h
            exact absurd h (by simp)
          · rw [hrec] at h
            simp only [Option.map_some', Option.some.injEq] at h
            have hmed : P t.2.2 := hbuf _ (computeMedian_median_mem _ _ hcm)
            have hl3 := ih _ _ _ _ hlev2 hmed hrec
            subst h
            intro buf hb
            rcases List.mem_or_eq_of_mem_set hb with hb1 | hb1
            · exact hl3 buf hb1
            · subst hb1
              intro x hx
              simp at hx
      · cases h
        exact hlev2

theorem pushBody_last (w : Int) (f : Nat)
    (ih : ∀ (levels : List (List Int)) (off : Nat) (v : Int) (out : List (List Int)),
      (levels = [] ∨ levels.getLastD [] ≠ []) →
      pushMedianValue w f levels off v = some out → out ≠ [] ∧ out.getLastD [] ≠ [])
    (levels1 : List (List Int)) (off : Nat) (v : Int) (out : List (List Int))
    (hoff : ¬ levels1.length ≤ off)
    (hl1 : off = levels1.length - 1 ∨ levels1.getLastD [] ≠ [])
    (h : (if w < ((levels1.getD off [] ++ [v]).length : Int) then
            match computeMedian (levels1.getD off [] ++ [v]) with
            | none => none
            | some t =>
              (pushMedianValue w f (levels1.set off (levels1.getD off [] ++ [v]))
                (off + 1) t.2.2).map (fun l3 => l3.set off [])
          else some (levels1.set off (levels1.getD off [] ++ [v]))) = some out) :
    out ≠ [] ∧ out.getLastD [] ≠ [] := by
  have hne1 : levels1 ≠ [] := by
    intro hc
    rw [hc] at hoff
    simp at hoff
  have hlev2 : (levels1.set off (levels1.getD off [] ++ [v])) ≠ [] ∧
      (levels1.set off (levels1.getD off [] ++ [v])).getLastD [] ≠ [] := by
    refine ⟨set_ne_nil _ _ _ hne1, ?_⟩
    by_cases hlastidx : off = levels1.length - 1
    · rw [hlastidx, getLastD_set_last _ _ _ hne1]
      simp
    · have hofflt : off + 1 < levels1.length := by omega
      rw [getLastD_set_of_lt _ _ _ _ hofflt]
      rcases hl1 with hcase | hcase
      · exact absurd hcase hlastidx
      · exact hcase
  split at h
  · rcases hcm : computeMedian (levels1.getD off [] ++ [v]) with _ | t
    · rw [hcm] at h
      exact absurd h (by simp)
    · rw [hcm] at h
      simp only [] at h
      rcases hrec : pushMedianValue w f (levels1.set off (levels1.getD off [] ++ [v]))
          (off + 1) t.2.2 with _ | l3
      · rw [hrec] at h
        exact absurd h (by simp)
      · rw [hrec] at h
        simp only [Option.map_some', Option.some.injEq] at h
        obtain ⟨hl3ne, hl3last⟩ := ih _ _ _ _ (Or.inr hlev2.2) hrec
        obtain ⟨hlen1, hlen2⟩ := pushMedianValue_length w f _ _ _ _ hrec
        subst h
        refine ⟨set_ne_nil _ _ _ hl3ne, ?_⟩
        rw [getLastD_set_of_lt _ _ _ _ (by omega)]
        exact hl3last
  · cases h
    exact hlev2

theorem pushMedianValue_last (w : Int) :
    ∀ (f : Nat) (levels : List (List Int)) (off : Nat) (v : Int) (out : List (List Int)),
      (levels = [] ∨ levels.getLastD [] ≠ []) →
      pushMedianValue w f levels off v = some out →
      out ≠ [] ∧ out.getLastD [] ≠ [] := by
  intro f
  induction f with
  | zero =>
    intro levels off v out _ h
    exact absurd h (by simp [pushMedianValue])
  | succ f ih =>
    intro levels off v out hlast h
    unfold pushMedianValue at h
    simp only [] at h
    by_cases hgrow : levels.length ≤ off
    · rw [if_pos hgrow] at h
      split at h
      · exact absurd h (by simp)
      · rename_i hoff
        refine pushBody_last w f ih (levels ++ [[]]) off v out hoff ?_ h
        left
        simp only [List.length_append, List.length_cons, List.length_nil] at hoff ⊢
        omega
    · rw [if_neg hgrow] at h
      split at h
      · exact absurd h (by simp)
      · rename_i hoff
        refine pushBody_last w f ih levels off v out hoff ?_ h
        right
        rcases hlast with hcase | hcase
        · exfalso
          rw [hcase] at hgrow
          simp at hgrow
        · exact hcase

theorem pushMedianValue_nil_start (w : Int) (f : Nat) (v : Int) (hw : 1 ≤ w) :
    pushMedianValue w (f + 1) [] 0 v = some [[v]] := by
  unfold pushMedianValue
  simp only []
  rw [if_neg (by simp), if_neg (by simp; omega)]
  rfl

theorem pushMedianValue_single_level (w : Int) (f : Nat) (vs : List Int) (v : Int)
    (hw : ((vs.length : Int) + 1) ≤ w) :
    pushMedianValue w (f + 1) [vs] 0 v = some [vs ++ [v]] := by
  unfold pushMedianValue
  simp only []
  rw [if_neg (by simp), if_neg (by simp; omega)]
  rfl

end Cruncher

namespace Cruncher

theorem ceilDivInt_pos (a b : Int) (ha : 1 ≤ a) (hb : 1 ≤ b) : 1 ≤ ceilDivInt a b := by
  unfold ceilDivInt
  have : Int.fdiv (-a) b < 0 := Int.fdiv_neg' (by omega) (by omega)
  omega

theorem sum_set_getD (l : List Int) (i : Nat) (h : i < l.length) :
    (l.set i (l.getD i 0 + 1)).sum = l.sum + 1 := by
  induction l generalizing i with
  | nil => simp at h
  | cons x t ih =>
    cases i with
    | zero =>
      simp [List.getD]
      ring
    | succ i2 =>
      simp only [List.set_cons_succ, List.sum_cons, List.getD_cons_succ]
      rw [ih i2 (by simpa using h)]
      ring

theorem histogramTotal_increment (is : IntStats) (v : Int) :
    histogramTotal (incrementFrequencyDistribution is v) = histogramTotal is + 1 := by
  by_cases h1 : Int.fdiv (v - is.FrequencyDistributionStartingValue) is.BucketSize < 0
  · rw [incrementFD_eq_before is v h1]
    unfold histogramTotal bumpBefore
    simp only []
    ring
  · by_cases h2 : (is.FrequencyDistribution.length : Int)
        ≤ Int.fdiv (v - is.FrequencyDistributionStartingValue) is.BucketSize
    · rw [incrementFD_eq_after is v h1 h2]
      unfold histogramTotal bumpAfter
      simp only []
      ring
    · rw [incrementFD_eq_bucket is v h1 h2]
      unfold histogramTotal bumpFD bumpOffset
      simp only []
      rw [sum_set_getD _ _ (by omega)]
      ring

theorem histogramTotal_foldl (l : List Int) (is : IntStats) :
    histogramTotal (l.foldl incrementFrequencyDistribution is)
      = histogramTotal is + (l.length : Int) := by
  induction l generalizing is with
  | nil => simp
  | cons x t ih =>
    simp only [List.foldl_cons, List.length_cons]
    rw [ih, histogramTotal_increment]
    push_cast
    ring

theorem histogramTotal_initStats (is : IntStats) (bq : Int) :
    histogramTotal (initStats is bq) = 0 := by
  unfold histogramTotal initStats
  simp

end Cruncher

namespace Cruncher

theorem observeValue_zero (is : IntStats) (v : Int) (h : is.Count = 0) :
    (observeValue is v).Min = v ∧ (observeValue is v).Max = v ∧
    (observeValue is v).ValueFrequency = [] := by
  unfold observeValue
  rw [if_pos h]
  exact ⟨rfl, rfl, rfl⟩

theorem observeValue_pos (is : IntStats) (v : Int) (h : ¬ is.Count = 0) (hmM : is.Min ≤ is.Max) :
    ((observeValue is v).Min = is.Min ∨ (observeValue is v).Min = v) ∧
    (observeValue is v).Min ≤ is.Min ∧ (observeValue is v).Min ≤ v ∧
    ((observeValue is v).Max = is.Max ∨ (observeValue is v).Max = v) ∧
    is.Max ≤ (observeValue is v).Max ∧ v ≤ (observeValue is v).Max := by
  unfold observeValue
  rw [if_neg h]
  split_ifs with h2 h3
  · exact ⟨Or.inl rfl, le_refl _, by simp only []; omega, Or.inr rfl, by simp only []; omega,
      by simp only []; omega⟩
  · exact ⟨Or.inr rfl, by simp only []; omega, le_refl _, Or.inl rfl, by simp only []; omega,
      by simp only []; omega⟩
  · exact ⟨Or.inl rfl, le_refl _, by simp only []; omega, Or.inl rfl, le_refl _,
      by simp only []; omega⟩

theorem addObserve_fields (a : Accumulator) (v : Int) :
    (addObserve a v).remedians = a.remedians ∧
    (addObserve a v).appoximationWindow = a.appoximationWindow ∧
    (addObserve a v).buckets = a.buckets ∧
    (addObserve a v).intStats = observeValue a.intStats v ∧
    (addObserve a v).total = a.total + v :=
  ⟨rfl, rfl, rfl, rfl, rfl⟩

theorem addValueFrequencyStep_fields (a2 : Accumulator) (rem : List (List Int)) (v : Int) :
    (addValueFrequencyStep a2 rem v).remedians = rem ∧
    (addValueFrequencyStep a2 rem v).appoximationWindow = a2.appoximationWindow ∧
    (addValueFrequencyStep a2 rem v).buckets = a2.buckets ∧
    (addValueFrequencyStep a2 rem v).total = a2.total ∧
    (addValueFrequencyStep a2 rem v).intStats.Min = a2.intStats.Min ∧
    (addValueFrequencyStep a2 rem v).intStats.Max = a2.intStats.Max ∧
    (addValueFrequencyStep a2 rem v).intStats.Count = a2.intStats.Count ∧
    (addValueFrequencyStep a2 rem v).intStats.FrequencyDistribution
      = a2.intStats.FrequencyDistribution ∧
    (addValueFrequencyStep a2 rem v).intStats.BucketSize = a2.intStats.BucketSize ∧
    (addValueFrequencyStep a2 rem v).intStats.FrequencyDistributionStartingValue
      = a2.intStats.FrequencyDistributionStartingValue ∧
    (addValueFrequencyStep a2 rem v).intStats.OutlierBefore = a2.intStats.OutlierBefore ∧
    (addValueFrequencyStep a2 rem v).intStats.OutlierAfter = a2.intStats.OutlierAfter :=
  ⟨rfl, rfl, rfl, rfl, rfl, rfl, rfl, rfl, rfl, rfl, rfl, rfl⟩

theorem addFrequencyStep_id (a1 : Accumulator) (v : Int)
    (hfd : a1.intStats.FrequencyDistribution = [])
    (hcnt : ¬ a1.intStats.Count = a1.appoximationWindow) :
    addFrequencyStep a1 v = some a1 := by
  unfold addFrequencyStep
  rw [if_neg (by rw [hfd]; simp), if_neg hcnt]

theorem addFrequencyStep_init (a1 : Accumulator) (v : Int)
    (hfd : a1.intStats.FrequencyDistribution = [])
    (hcnt : a1.intStats.Count = a1.appoximationWindow) :
    addFrequencyStep a1 v = initializeFrequencyDistribution a1 := by
  unfold addFrequencyStep
  rw [if_neg (by rw [hfd]; simp), if_pos hcnt]

theorem addFrequencyStep_incr (a1 : Accumulator) (v : Int)
    (hfd : 0 < a1.intStats.FrequencyDistribution.length)
    (hsz : ¬ a1.intStats.BucketSize = 0) :
    addFrequencyStep a1 v
      = some { a1 with intStats := incrementFrequencyDistribution a1.intStats v } := by
  unfold addFrequencyStep
  rw [if_pos hfd]
  unfold incrementChecked
  rw [if_neg hsz]
  rfl

theorem addFrequencyStep_preserves (a1 a2 : Accumulator) (v : Int)
    (h : addFrequencyStep a1 v = some a2) :
    a2.remedians = a1.remedians ∧ a2.total = a1.total ∧
    a2.appoximationWindow = a1.appoximationWindow ∧ a2.buckets = a1.buckets ∧
    a2.intStats.Min = a1.intStats.Min ∧ a2.intStats.Max = a1.intStats.Max ∧
    a2.intStats.Count = a1.intStats.Count := by
  unfold addFrequencyStep at h
  by_cases hfd : 0 < a1.intStats.FrequencyDistribution.length
  · rw [if_pos hfd] at h
    unfold incrementChecked at h
    split at h
    · exact absurd h (by simp)
    · simp only [Option.map_some', Option.some.injEq] at h
      subst h
      have hf := incrementFD_fields a1.intStats v
      exact ⟨rfl, rfl, rfl, rfl, hf.2.2.1, hf.2.2.2.1, hf.2.2.2.2.1⟩
  · rw [if_neg hfd] at h
    split at h
    · obtain ⟨l0, r, _, _, _, hrem, htot, hwin, hbk, hstats⟩ := initFD_eq_some _ _ h
      have hFf := foldl_incrementFD_fields l0 (initStats a1.intStats a1.buckets)
      have hisf := initStats_fields a1.intStats a1.buckets
      refine ⟨hrem, htot, hwin, hbk, ?_, ?_, ?_⟩
      · rw [hstats, hFf.2.2.1, hisf.1]
      · rw [hstats, hFf.2.2.2.1, hisf.2.1]
      · rw [hstats, hFf.2.2.2.2.1, hisf.2.2.1]
    · cases h
      exact ⟨rfl, rfl, rfl, rfl, rfl, rfl, rfl⟩

end Cruncher

namespace Cruncher

theorem observeValue_minmax_invariant (vs : List Int) (v : Int) (is : IntStats)
    (hcount : is.Count = (vs.length : Int))
    (hminmem : vs ≠ [] → is.Min ∈ vs) (hmaxmem : vs ≠ [] → is.Max ∈ vs)
    (hminle : ∀ x ∈ vs, is.Min ≤ x) (hlemax : ∀ x ∈ vs, x ≤ is.Max) :
    (observeValue is v).Min ∈ vs ++ [v] ∧ (observeValue is v).Max ∈ vs ++ [v] ∧
    (∀ x ∈ vs ++ [v], (observeValue is v).Min ≤ x) ∧
    (∀ x ∈ vs ++ [v], x ≤ (observeValue is v).Max) := by
  by_cases hvsnil : vs = []
  · subst hvsnil
    have hc0 : is.Count = 0 := by rw [hcount]; rfl
    obtain ⟨hzmin, hzmax, _⟩ := observeValue_zero is v hc0
    rw [hzmin, hzmax]
    simp
  · have hcne : ¬ is.Count = 0 := by
      rw [hcount]
      intro hc
      exact hvsnil (List.length_eq_zero.mp (by exact_mod_cast hc))
    have hmM : is.Min ≤ is.Max := hlemax _ (hminmem hvsnil)
    obtain ⟨hminor, hminle1, hminle2, hmaxor, hmax1, hmax2⟩ := observeValue_pos is v hcne hmM
    refine ⟨?_, ?_, ?_, ?_⟩
    · rcases hminor with h1 | h1 <;> rw [h1]
      · exact List.mem_append_left _ (hminmem hvsnil)
      · exact List.mem_append_right _ (by simp)
    · rcases hmaxor with h1 | h1 <;> rw [h1]
      · exact List.mem_append_left _ (hmaxmem hvsnil)
      · exact List.mem_append_right _ (by simp)
    · intro x hx
      rcases List.mem_append.mp hx with h1 | h1
      · exact le_trans hminle1 (hminle x h1)
      · simp only [List.mem_singleton] at h1
        subst h1
        exact hminle2
    · intro x hx
      rcases List.mem_append.mp hx with h1 | h1
      · exact le_trans (hlemax x h1) hmax1
      · simp only [List.mem_singleton] at h1
        subst h1
        exact hmax2

end Cruncher

namespace Cruncher

theorem runInv_add (w b : Int) (vs : List Int) (v : Int) (a a1 : Accumulator)
    (inv : RunInv w b vs a) (h : Add a v = some a1) : RunInv w b (vs ++ [v]) a1 := by
  obtain ⟨a2, rem, hfs, hp, ha1⟩ := Add_eq_some a a1 v h
  subst ha1
  have hvf := addValueFrequencyStep_fields a2 rem v
  have hfsp := addFrequencyStep_preserves _ _ _ hfs
  have hobs := observeValue_fields a.intStats v
  have hrem2 : a2.remedians = a.remedians := hfsp.1
  have hwin2 : a2.appoximationWindow = w := hfsp.2.2.1.trans inv.window
  have hbk2 : a2.buckets = b := hfsp.2.2.2.1.trans inv.bucketsEq
  have hMin2 : a2.intStats.Min = (observeValue a.intStats v).Min := hfsp.2.2.2.2.1
  have hMax2 : a2.intStats.Max = (observeValue a.intStats v).Max := hfsp.2.2.2.2.2.1
  have hCnt2 : a2.intStats.Count = (observeValue a.intStats v).Count := hfsp.2.2.2.2.2.2
  rw [hrem2, hwin2] at hp
  have hw1 : 1 ≤ w := by
    by_contra hc
    push_neg at hc
    exact Option.noConfusion
      ((pushMedianValue_none_of_nonpos w (by omega) _ _ _ _).symm.trans hp)
  have hcount2 : a2.intStats.Count = (vs.length : Int) + 1 := by
    rw [hCnt2, hobs.1, inv.count]
  have hmmx := observeValue_minmax_invariant vs v a.intStats inv.count inv.minmem
    inv.maxmem inv.minle inv.lemax
  have happne : vs ++ [v] ≠ [] := by simp
  have hpushmem : ∀ buf ∈ rem, ∀ x ∈ buf, x ∈ vs ++ [v] :=
    pushMedianValue_mem (fun x => x ∈ vs ++ [v]) w _ _ _ _ _
      (fun buf hb x hx => List.mem_append_left _ (inv.remMem buf hb x hx))
      (List.mem_append_right _ (by simp)) hp
  have hpushlast : rem ≠ [] ∧ rem.getLastD [] ≠ [] := by
    refine pushMedianValue_last w _ _ _ _ _ ?_ hp
    by_cases hvsnil : vs = []
    · exact Or.inl (inv.remNil hvsnil)
    · exact Or.inr (inv.lastNonempty hvsnil)
  have hsmallrem : ((vs ++ [v]).length : Int) ≤ w →
      (addValueFrequencyStep a2 rem v).remedians = [vs ++ [v]] := by
    intro hle
    simp only [List.length_append, List.length_cons, List.length_nil] at hle
    push_cast at hle
    rw [hvf.1]
    by_cases hvsnil : vs = []
    · subst hvsnil
      rw [inv.remNil rfl] at hp
      have hr := Option.some.inj ((pushMedianValue_nil_start w 1 v hw1).symm.trans hp)
      rw [← hr]
      rfl
    · have hsm := inv.smallRem hvsnil (by omega)
      rw [hsm] at hp
      have hr := Option.some.inj
        ((pushMedianValue_single_level w 2 vs v (by omega)).symm.trans hp)
      rw [← hr]
  -- frequency-distribution bookkeeping, three regimes
  have hfdpart :
      (((vs ++ [v]).length : Int) < w →
        (addValueFrequencyStep a2 rem v).intStats.FrequencyDistribution = [] ∧
        (addValueFrequencyStep a2 rem v).intStats.OutlierBefore = 0 ∧
        (addValueFrequencyStep a2 rem v).intStats.OutlierAfter = 0) ∧
      (w ≤ ((vs ++ [v]).length : Int) →
        1 ≤ b ∧
        (addValueFrequencyStep a2 rem v).intStats.FrequencyDistribution.length = b.toNat ∧
        1 ≤ (addValueFrequencyStep a2 rem v).intStats.BucketSize ∧
        histogramTotal (addValueFrequencyStep a2 rem v).intStats
          = ((vs ++ [v]).length : Int) - 1) := by
    have hlenapp : ((vs ++ [v]).length : Int) = (vs.length : Int) + 1 := by
      simp only [List.length_append, List.length_cons, List.length_nil]
      push_cast
      ring
    have hhisteq : histogramTotal (addValueFrequencyStep a2 rem v).intStats
        = histogramTotal a2.intStats := by
      unfold histogramTotal
      rw [hvf.2.2.2.2.2.2.2.1, hvf.2.2.2.2.2.2.2.2.2.2.1, hvf.2.2.2.2.2.2.2.2.2.2.2]
    by_cases hsmall : ((vs.length : Int) + 1) < w
    · have hfdprev := inv.fdSmall (by omega)
      have hfd0 : (addObserve a v).intStats.FrequencyDistribution = [] := by
        show (observeValue a.intStats v).FrequencyDistribution = []
        rw [hobs.2.1]
        exact hfdprev.1
      have hcntne : ¬ (addObserve a v).intStats.Count = (addObserve a v).appoximationWindow := by
        show ¬ (observeValue a.intStats v).Count = a.appoximationWindow
        rw [hobs.1, inv.count, inv.window]
        omega
      have ha2 : a2 = addObserve a v :=
        (Option.some.inj ((addFrequencyStep_id _ v hfd0 hcntne).symm.trans hfs)).symm
      constructor
      · intro _
        refine ⟨?_, ?_, ?_⟩
        · rw [hvf.2.2.2.2.2.2.2.1, ha2]
          exact hfd0
        · rw [hvf.2.2.2.2.2.2.2.2.2.2.1, ha2]
          show (observeValue a.intStats v).OutlierBefore = 0
          rw [hobs.2.2.2.2.2.2.1]
          exact hfdprev.2.1
        · rw [hvf.2.2.2.2.2.2.2.2.2.2.2, ha2]
          show (observeValue a.intStats v).OutlierAfter = 0
          rw [hobs.2.2.2.2.2.2.2]
          exact hfdprev.2.2
      · intro hge
        rw [hlenapp] at hge
        omega
    · by_cases htrig : (vs.length : Int) + 1 = w
      · -- the add that reaches the window: initialization from the level-0 buffer
        have hfdprev := inv.fdSmall (by omega)
        have hfd0 : (addObserve a v).intStats.FrequencyDistribution = [] := by
          show (observeValue a.intStats v).FrequencyDistribution = []
          rw [hobs.2.1]
          exact hfdprev.1
        have hcnteq : (addObserve a v).intStats.Count = (addObserve a v).appoximationWindow := by
          show (observeValue a.intStats v).Count = a.appoximationWindow
          rw [hobs.1, inv.count, inv.window]
          omega
        have hinit := addFrequencyStep_init _ v hfd0 hcnteq
        rw [hinit] at hfs
        obtain ⟨l0, r, harem, hbk, hguard, hremA, htotA, hwinA, hbkA, hstatsA⟩ :=
          initFD_eq_some _ _ hfs
        have haremA : a.remedians = l0 :: r := harem
        by_cases hvsnil : vs = []
        · exfalso
          rw [inv.remNil hvsnil] at haremA
          exact List.noConfusion haremA
        · have hsm := inv.smallRem hvsnil (by omega)
          rw [hsm] at haremA
          injection haremA with hl0 hr
          have hb0 : ¬ a.buckets ≤ 0 := hbk
          rw [inv.bucketsEq] at hb0
          have hFf := foldl_incrementFD_fields l0
            (initStats (addObserve a v).intStats (addObserve a v).buckets)
          have hisf := initStats_fields (addObserve a v).intStats (addObserve a v).buckets
          have hbkObs : (addObserve a v).buckets = b := inv.bucketsEq
          have hminmax : (observeValue a.intStats v).Min ≤ (observeValue a.intStats v).Max := by
            have h1 := hmmx.2.2.1 _ hmmx.2.1
            exact h1
          have hszpos : 1 ≤ (initStats (addObserve a v).intStats (addObserve a v).buckets).BucketSize := by
            rw [hisf.2.2.2.2.2.2.2.1]
            refine ceilDivInt_pos _ _ ?_ (by rw [hbkObs]; omega)
            show 1 ≤ (observeValue a.intStats v).Max - (observeValue a.intStats v).Min + 1
            omega
          constructor
          · intro hlt
            rw [hlenapp] at hlt
            omega
          · intro _
            refine ⟨by omega, ?_, ?_, ?_⟩
            · rw [hvf.2.2.2.2.2.2.2.1, hstatsA, hFf.2.2.2.2.2.2.2.2, hisf.2.2.2.2.2.2.1,
                List.length_replicate, hbkObs]
            · rw [hvf.2.2.2.2.2.2.2.2.1, hstatsA, hFf.1]
              exact hszpos
            · rw [hhisteq, hstatsA, histogramTotal_foldl, histogramTotal_initStats, hlenapp,
                ← hl0]
              ring
      · -- past the window: plain increment
        have hge : w ≤ (vs.length : Int) := by omega
        have hvsnil : vs ≠ [] := by
          intro hc
          rw [hc] at hge
          simp at hge
          omega
        obtain ⟨h1b, hlen, hsz, htot⟩ := inv.fdBig hvsnil hge
        have hfdpos : 0 < (addObserve a v).intStats.FrequencyDistribution.length := by
          show 0 < (observeValue a.intStats v).FrequencyDistribution.length
          rw [hobs.2.1, hlen]
          omega
        have hszne : ¬ (addObserve a v).intStats.BucketSize = 0 := by
          show ¬ (observeValue a.intStats v).BucketSize = 0
          rw [hobs.2.2.1]
          omega
        have ha2 : a2 = { addObserve a v with
            intStats := incrementFrequencyDistribution (addObserve a v).intStats v } :=
          (Option.some.inj ((addFrequencyStep_incr _ v hfdpos hszne).symm.trans hfs)).symm
        have ha2is : a2.intStats = incrementFrequencyDistribution (observeValue a.intStats v) v :=
          congrArg Accumulator.intStats ha2
        have hincf := incrementFD_fields (observeValue a.intStats v) v
        constructor
        · intro hlt
          rw [hlenapp] at hlt
          omega
        · intro _
          refine ⟨h1b, ?_, ?_, ?_⟩
          · rw [hvf.2.2.2.2.2.2.2.1, ha2is, hincf.2.2.2.2.2.2.2.2, hobs.2.1, hlen]
          · rw [hvf.2.2.2.2.2.2.2.2.1, ha2is, hincf.1, hobs.2.2.1]
            exact hsz
          · rw [hhisteq, ha2is, histogramTotal_increment, hlenapp]
            have hobshist : histogramTotal (observeValue a.intStats v)
                = histogramTotal a.intStats := by
              unfold histogramTotal
              rw [hobs.2.1, hobs.2.2.2.2.2.2.1, hobs.2.2.2.2.2.2.2]
            rw [hobshist, htot]
            ring
  refine
    { window := hvf.2.1.trans hwin2
      bucketsEq := hvf.2.2.1.trans hbk2
      count := by
        rw [hvf.2.2.2.2.2.2.1, hcount2]
        simp only [List.length_append, List.length_cons, List.length_nil]
        push_cast
        ring
      minmem := fun _ => by rw [hvf.2.2.2.2.1, hMin2]; exact hmmx.1
      maxmem := fun _ => by rw [hvf.2.2.2.2.2.1, hMax2]; exact hmmx.2.1
      minle := fun x hx => by rw [hvf.2.2.2.2.1, hMin2]; exact hmmx.2.2.1 x hx
      lemax := fun x hx => by rw [hvf.2.2.2.2.2.1, hMax2]; exact hmmx.2.2.2 x hx
      remNonempty := fun _ => by rw [hvf.1]; exact hpushlast.1
      lastNonempty := fun _ => by rw [hvf.1]; exact hpushlast.2
      remMem := fun buf hb x hx => by
        rw [hvf.1] at hb
        exact hpushmem buf hb x hx
      remNil := fun hc => absurd hc happne
      smallRem := fun _ => hsmallrem
      fdSmall := hfdpart.1
      fdBig := fun _ => hfdpart.2 }

end Cruncher

namespace Cruncher

theorem runInv_new (w b : Int) : RunInv w b [] (NewAccumulator w b) :=
  { window := rfl, bucketsEq := rfl, count := rfl,
    minmem := fun hc => absurd rfl hc,
    maxmem := fun hc => absurd rfl hc,
    minle := fun x hx => absurd hx (List.not_mem_nil x),
    lemax := fun x hx => absurd hx (List.not_mem_nil x),
    remNonempty := fun hc => absurd rfl hc,
    lastNonempty := fun hc => absurd rfl hc,
    remMem := fun buf hb => absurd hb (List.not_mem_nil buf),
    remNil := fun _ => rfl,
    smallRem := fun hc => absurd rfl hc,
    fdSmall := fun _ => ⟨rfl, rfl, rfl⟩,
    fdBig := fun hc => absurd rfl hc }

theorem runInv_run (w b : Int) : ∀ (vs0 vs : List Int) (a a1 : Accumulator),
    RunInv w b vs a → runAdds a vs0 = some a1 → RunInv w b (vs ++ vs0) a1 := by
  intro vs0
  induction vs0 with
  | nil =>
    intro vs a a1 inv h
    unfold runAdds at h
    cases h
    simpa using inv
  | cons v rest ih =>
    intro vs a a1 inv h
    unfold runAdds at h
    rcases hadd : Add a v with _ | amid
    · rw [hadd] at h
      exact absurd h (by simp)
    · rw [hadd] at h
      have inv1 := runInv_add w b vs v a amid inv hadd
      have h2 := ih (vs ++ [v]) amid a1 inv1 h
      simpa [List.append_assoc] using h2

theorem runInv_of_runAdds (w b : Int) (vs : List Int) (a : Accumulator)
    (h : runAdds (NewAccumulator w b) vs = some a) : RunInv w b vs a := by
  have h2 := runInv_run w b vs [] (NewAccumulator w b) a (runInv_new w b) h
  simpa using h2

/-- Claim C7: for every non-empty stream ingested into a fresh
accumulator whose ingestion and finalize complete, the accumulator
min and max after finalize are the true running minimum and maximum
of the ingested values, and the median estimate lies between them
(the median is in fact one of the ingested values, because a remedian
flush promotes an actual element of the flushed buffer). -/
theorem C7_median_within_min_max (w b : Int) (vs : List Int) (a a1 : Accumulator)
    (hne : vs ≠ []) (hrun : runAdds (NewAccumulator w b) vs = some a)
    (hsum : Summarize a = some a1) :
    a1.intStats.Min ∈ vs ∧ (∀ x ∈ vs, a1.intStats.Min ≤ x) ∧
    a1.intStats.Max ∈ vs ∧ (∀ x ∈ vs, x ≤ a1.intStats.Max) ∧
    a1.intStats.Min ≤ a1.intStats.Median ∧ a1.intStats.Median ≤ a1.intStats.Max := by
  have inv := runInv_of_runAdds w b vs a hrun
  obtain ⟨b', hsi, hbody⟩ := summarize_eq_cases a a1 hsum
  have hb'm : b'.intStats.Min = a.intStats.Min ∧ b'.intStats.Max = a.intStats.Max ∧
      b'.remedians = a.remedians := by
    unfold summarizeInit at hsi
    split at hsi
    · obtain ⟨l0, r, _, _, _, hrem, _, _, _, hstats⟩ := initFD_eq_some _ _ hsi
      have hFf := foldl_incrementFD_fields l0 (initStats a.intStats a.buckets)
      have hisf := initStats_fields a.intStats a.buckets
      exact ⟨by rw [hstats, hFf.2.2.1, hisf.1], by rw [hstats, hFf.2.2.2.1, hisf.2.1], hrem⟩
    · cases hsi
      exact ⟨rfl, rfl, rfl⟩
  obtain ⟨hcnt, hcases⟩ := summarizeBody_eq_cases b' a1 hbody
  rcases hcases with ⟨hremnil, ha1⟩ | ⟨l0, r, t, hremcons, hcm, ha1⟩
  · exfalso
    rw [hb'm.2.2] at hremnil
    exact inv.remNonempty hne hremnil
  · subst ha1
    have ha1Min : (summarizeMedian (setMean b') t).intStats.Min = a.intStats.Min :=
      (rfl : (summarizeMedian (setMean b') t).intStats.Min = b'.intStats.Min).trans hb'm.1
    have ha1Max : (summarizeMedian (setMean b') t).intStats.Max = a.intStats.Max :=
      (rfl : (summarizeMedian (setMean b') t).intStats.Max = b'.intStats.Max).trans hb'm.2.1
    have ha1Med : (summarizeMedian (setMean b') t).intStats.Median = t.2.2 := rfl
    have hmedmem : t.2.2 ∈ vs := by
      have hra : a.remedians = l0 :: r := by rw [← hb'm.2.2]; exact hremcons
      have h1 : t.2.2 ∈ (l0 :: r).getLastD [] := computeMedian_median_mem _ _ hcm
      have h2 : (l0 :: r).getLastD [] ∈ a.remedians := by
        rw [hra]
        exact getLastD_mem _ _ (by simp)
      exact inv.remMem _ h2 _ h1
    refine ⟨?_, ?_, ?_, ?_, ?_, ?_⟩
    · rw [ha1Min]
      exact inv.minmem hne
    · intro x hx
      rw [ha1Min]
      exact inv.minle x hx
    · rw [ha1Max]
      exact inv.maxmem hne
    · intro x hx
      rw [ha1Max]
      exact inv.lemax x hx
    · rw [ha1Min, ha1Med]
      exact inv.minle _ hmedmem
    · rw [ha1Max, ha1Med]
      exact inv.lemax _ hmedmem

/-- Claim C10: with a positive window, after every completed ingestion
of a non-empty stream the deepest remedian level exists and is
non-empty, so the median computation of finalize, which reads exactly
that level, never touches an empty buffer. -/
theorem C10_deepest_level_nonempty (w b : Int) (vs : List Int) (a : Accumulator)
    (hw : 1 ≤ w) (hne : vs ≠ []) (hrun : runAdds (NewAccumulator w b) vs = some a) :
    a.remedians ≠ [] ∧ a.remedians.getLastD [] ≠ [] ∧
    (computeMedian (a.remedians.getLastD [])).isSome := by
  have inv := runInv_of_runAdds w b vs a hrun
  refine ⟨inv.remNonempty hne, inv.lastNonempty hne, ?_⟩
  rw [computeMedian_of_ne_nil _ (inv.lastNonempty hne)]
  rfl

/-- Claim C3, amended: after a completed run and finalize on a fresh
accumulator, the bucket counts plus both outlier counters equal the
ingested count when the stream stayed below the window, but equal
count minus one from the moment the window was reached: the add that
triggers initialization pushes its value into the level-0 buffer only
after the buffer has been replayed, so exactly that value is missing
from the histogram. -/
theorem C3_conservation_amended (w b : Int) (vs : List Int) (a a1 : Accumulator)
    (hrun : runAdds (NewAccumulator w b) vs = some a)
    (hsum : Summarize a = some a1) :
    histogramTotal a1.intStats
      = if (vs.length : Int) < w then (vs.length : Int) else (vs.length : Int) - 1 := by
  have inv := runInv_of_runAdds w b vs a hrun
  obtain ⟨b', hsi, hbody⟩ := summarize_eq_cases a a1 hsum
  obtain ⟨hcnt, hcases⟩ := summarizeBody_eq_cases b' a1 hbody
  have hvsne : vs ≠ [] := by
    intro hc
    subst hc
    unfold summarizeInit at hsi
    split at hsi
    · obtain ⟨l0, r, hrem0, _⟩ := initFD_eq_some _ _ hsi
      rw [inv.remNil rfl] at hrem0
      exact List.noConfusion hrem0
    · cases hsi
      exact hcnt (by rw [inv.count]; rfl)
  have hhist1 : histogramTotal a1.intStats = histogramTotal b'.intStats := by
    rcases hcases with ⟨_, ha1⟩ | ⟨l0, r, t, _, _, ha1⟩ <;> subst ha1 <;> rfl
  by_cases hlt : (vs.length : Int) < w
  · unfold summarizeInit at hsi
    rw [if_pos (by rw [inv.count, inv.window]; exact hlt)] at hsi
    obtain ⟨l0, r, hrem0, _, _, _, _, _, _, hstats⟩ := initFD_eq_some _ _ hsi
    have hra : a.remedians = l0 :: r := hrem0
    rw [inv.smallRem hvsne (by omega)] at hra
    injection hra with hl0 hr
    rw [hhist1, hstats, histogramTotal_foldl, histogramTotal_initStats, ← hl0, if_pos hlt]
    ring
  · unfold summarizeInit at hsi
    rw [if_neg (by rw [inv.count, inv.window]; exact hlt)] at hsi
    cases hsi
    obtain ⟨_, _, _, htot⟩ := inv.fdBig hvsne (by omega)
    rw [hhist1, htot, if_neg hlt]

end Cruncher

namespace Cruncher

theorem C3_conservation_witness :
    histogramTotal accRun124F.intStats
      = if ((([1, 2, 4] : List Int).length : Int)) < 1000
        then (([1, 2, 4] : List Int).length : Int)
        else (([1, 2, 4] : List Int).length : Int) - 1 :=
  C3_conservation_amended 1000 5 [1, 2, 4] accRun124 accRun124F (by rfl) (by rfl)

theorem C7_median_witness :
    accRun124F.intStats.Min ∈ ([1, 2, 4] : List Int) ∧
    (∀ x ∈ ([1, 2, 4] : List Int), accRun124F.intStats.Min ≤ x) ∧
    accRun124F.intStats.Max ∈ ([1, 2, 4] : List Int) ∧
    (∀ x ∈ ([1, 2, 4] : List Int), x ≤ accRun124F.intStats.Max) ∧
    accRun124F.intStats.Min ≤ accRun124F.intStats.Median ∧
    accRun124F.intStats.Median ≤ accRun124F.intStats.Max :=
  C7_median_within_min_max 1000 5 [1, 2, 4] accRun124 accRun124F (by decide) (by rfl) (by rfl)

theorem C10_deepest_witness :
    accRun124.remedians ≠ [] ∧ accRun124.remedians.getLastD [] ≠ [] ∧
    (computeMedian (accRun124.remedians.getLastD [])).isSome :=
  C10_deepest_level_nonempty 1000 5 [1, 2, 4] accRun124 (by decide) (by decide) (by rfl)

end Cruncher
